import Mathlib

/-!
Verification development for the Somnia data-streams SDK.

The SDK's core logic is embedded shallowly:

* the `SchemaEncoder` class from `src/modules/streams/encoder/index.ts`
  (both source variants of the file are embedded: the first variant's
  `encodeData`/`decodeData`, and the second variant's `encodeData`);
* the `Streams` facade from `src/modules/streams/index.ts`
  (`schemaLookup`, `deserialiseRawData`, `getAtIndex`, `getBetweenRange`,
  `getByKey`, `computeSchemaId`, `isDataSchemaRegistered`,
  `registerDataSchemas`) as state-passing functions over an oracle
  environment standing for the chain RPC collaborators, together with a
  trace of the contract calls each operation issues;
* `assertAddressIsValid` from `src/utils/validation.ts`.

External library code (the viem ABI codec, `parseAbi`, keccak-based
address checksumming) is not part of the repository; where a definition
stands for such code it is marked `Modelled from the spec:` and follows
the specification's description of the collaborator's contract.
-/

namespace StreamsSDK

/- ## String and list primitives

JavaScript strings are modelled as Lean `String`s.  The handful of string
operations the source uses (`startsWith`, `endsWith`, `indexOf`,
`replace`, `trim`, whitespace stripping) are re-implemented over the
underlying character lists so that everything computes by kernel
reduction. -/

/-- Does the first list start with the second (the pattern)? -/
def listStartsWith : List Char → List Char → Bool
  | _, [] => true
  | [], _ :: _ => false
  | c :: cs, p :: ps => c == p && listStartsWith cs ps

/-- Does the pattern occur anywhere in the list?  Models
JavaScript `indexOf(pat) !== -1`. -/
def listHasSub : List Char → List Char → Bool
  | [], pat => pat.isEmpty
  | c :: cs, pat => listStartsWith (c :: cs) pat || listHasSub cs pat

def strStartsWith (s pat : String) : Bool := listStartsWith s.data pat.data

def strEndsWith (s pat : String) : Bool := listStartsWith s.data.reverse pat.data.reverse

def strHasSub (s pat : String) : Bool := listHasSub s.data pat.data

/-- Drop the last `n` characters.  Models `String.prototype.slice(0, -n)`. -/
def strDropRight (s : String) (n : Nat) : String := ⟨s.data.take (s.data.length - n)⟩

/-- The whitespace characters recognised by the JavaScript `\s` class and
`String.prototype.trim` (restricted to the ASCII ones that can appear in
schema strings). -/
def isWsChar (c : Char) : Bool := c == ' ' || c == '\t' || c == '\n' || c == '\r'

/-- Models `String.prototype.trim`. -/
def strTrim (s : String) : String :=
  ⟨((s.data.dropWhile isWsChar).reverse.dropWhile isWsChar).reverse⟩

/-- Models `type.replace(/\s/g, "")`: remove every whitespace character. -/
def removeWs (s : String) : String := ⟨s.data.filter (fun c => !isWsChar c)⟩

/-- Replace the first occurrence of `pat` by `rep` and stop:
models `String.prototype.replace` with a plain-string pattern. -/
def replaceFirst : List Char → List Char → List Char → List Char
  | [], _, _ => []
  | c :: cs, pat, rep =>
    if listStartsWith (c :: cs) pat then rep ++ (c :: cs).drop pat.length
    else c :: replaceFirst cs pat rep

/-- Models `Array.prototype.join(",")`. -/
def joinComma : List String → String
  | [] => ""
  | [s] => s
  | s :: rest => s ++ "," ++ joinComma rest

def isHexDigitChar (c : Char) : Bool :=
  c.isDigit || (('a' ≤ c) && (c ≤ 'f')) || (('A' ≤ c) && (c ≤ 'F'))

/-- Models viem's `isHex` (strict): `0x` followed by hex digits only. -/
def isHexStr (s : String) : Bool :=
  strStartsWith s ("0x") && (s.data.drop 2).all isHexDigitChar

/-- Models viem's `isAddress(s, { strict: false })`: `0x` followed by
exactly 40 hex digits, any mix of cases. -/
def isAddressStr (s : String) : Bool :=
  s.data.length == 42 && strStartsWith s ("0x") && (s.data.drop 2).all isHexDigitChar

def lowerStr (s : String) : String := ⟨s.data.map Char.toLower⟩

def hexDigit (n : Nat) : Char :=
  if n < 10 then Char.ofNat ('0'.toNat + n) else Char.ofNat ('a'.toNat + (n - 10))

/-- Two lowercase hex digits of a byte. -/
def byteHex (n : Nat) : List Char := [hexDigit (n / 16 % 16), hexDigit (n % 16)]

def concatMap (f : α → List β) : List α → List β
  | [] => []
  | a :: as => f a ++ concatMap f as

/-- Modelled from the spec: viem's `stringToHex(value, { size: 32 })` used
by the encoder for non-hex strings in `bytes32` slots — "converted to its
fixed-size byte representation (left-padded/truncated to the fixed
size)".  Characters are taken as single bytes (the claims constrain the
inputs to ASCII), hex-encoded, and right-padded with zeros to 32 bytes. -/
def stringToHex32 (s : String) : String :=
  let bytes := s.data.take 32
  ⟨'0' :: 'x' :: (concatMap (fun c => byteHex c.toNat) bytes
      ++ List.replicate (2 * (32 - bytes.length)) '0')⟩

/-- Modelled from the spec: viem's `getAddress` checksum normalization
("Address-typed string values are normalized to checksummed form").  The
EIP-55 checksum is a keccak-based per-digit case map; its exact output
case pattern is irrelevant to every claim (which only relate encode and
decode through the same normalization), so it is modelled as an abstract
deterministic transformation, here the identity on the address text. -/
def checksumAddress (s : String) : String := s

def zeroAddressStr : String := "0x0000000000000000000000000000000000000000"

/-- `zeroBytes32` from `src/constants/index.ts`. -/
def zeroBytes32 : String :=
  "0x0000000000000000000000000000000000000000000000000000000000000000"

/- ## The `ipfsHash` → `bytes32` textual substitution (both constructor
variants)

The source runs
`schema.replace(new RegExp("ipfsHash (\\S+)", "g"), "bytes32 $1")`
before parsing.  `matchIpfsAt` models one attempted match of the regex at
the head of the character list: the literal `"ipfsHash "` followed by a
greedy non-empty run of non-whitespace characters (the `\S+` capture).
`replaceIpfsAux` models the global left-to-right scan, resuming after
each replacement; one character is consumed per step, so the string
length bounds the number of steps and is used as fuel. -/

def ipfsPat : List Char := ("ipfsHash ").data

def matchIpfsAt (cs : List Char) : Option (List Char × List Char) :=
  if listStartsWith cs ipfsPat then
    let rest := cs.drop ipfsPat.length
    let word := rest.takeWhile (fun c => !isWsChar c)
    if word.isEmpty then none else some (word, rest.drop word.length)
  else none

def replaceIpfsAux : Nat → List Char → List Char
  | 0, cs => cs
  | _ + 1, [] => []
  | fuel + 1, c :: cs =>
    match matchIpfsAt (c :: cs) with
    | some (word, rest) => ("bytes32 ").data ++ word ++ replaceIpfsAux fuel rest
    | none => c :: replaceIpfsAux fuel cs

/-- The alias-substitution pass of the `SchemaEncoder` constructor. -/
def replaceIpfsHash (s : String) : String := ⟨replaceIpfsAux s.data.length s.data⟩

/- ## ABI parameters and runtime values

`AbiParam` is viem's `AbiParameter` as the encoder uses it: a name, a
type string, and — exactly when the parameter came from a tuple — a
`components` list (`'components' in p` distinguishes the two cases in
the source).

`Value` is the dynamic JavaScript value space flowing through
`encodeData`/`decodeData` (`SchemaValue`): strings, booleans, bigints,
arrays, the `undefined` produced by out-of-bounds indexing, and the
`{name, type, value}` records (`SchemaItem`) that `decodeData` builds
for tuple components. -/

inductive AbiParam where
  | prim (name : Option String) (type : String)
  | comp (name : Option String) (type : String) (components : List AbiParam)

inductive Value where
  | vstr (s : String)
  | vbool (b : Bool)
  | vint (n : Int)
  | vundef
  | varr (vs : List Value)
  | vitem (name type : String) (v : Value)

def AbiParam.ptype : AbiParam → String
  | .prim _ t => t
  | .comp _ t _ => t

def AbiParam.pname : AbiParam → Option String
  | .prim n _ => n
  | .comp n _ _ => n

def AbiParam.comps : AbiParam → List AbiParam
  | .prim _ _ => []
  | .comp _ _ cs => cs

def AbiParam.isComp : AbiParam → Bool
  | .prim _ _ => false
  | .comp _ _ _ => true

/-- `{ ...abiParam, type: abiParam.type.slice(0, -2) }` with the
components re-attached when present (the array-element parameter built
by `recursivePrepareData`). -/
def elemParam : AbiParam → AbiParam
  | .prim n t => .prim n (strDropRight t 2)
  | .comp n t cs => .comp n (strDropRight t 2) cs

def Value.isArr : Value → Bool
  | .varr _ => true
  | _ => false

def Value.elems : Value → List Value
  | .varr vs => vs
  | _ => []

/-- JavaScript indexing `vs[i]`: the element when in bounds, `undefined`
otherwise. -/
def getIdx (vs : List Value) (i : Nat) : Value := vs.getD i Value.vundef

/-- Apply `g` to each parameter and the value at the same position,
`undefined` past the end of the value list: models
`components.map((c, i) => g(c, value[i]))`. -/
def idxApply (g : AbiParam → Value → α) : List AbiParam → List Value → List α
  | [], _ => []
  | c :: cs, [] => g c Value.vundef :: idxApply g cs []
  | c :: cs, x :: xs => g c x :: idxApply g cs xs

/-- Pointwise conjunction over two lists of equal length (false when the
lengths differ). -/
def all2F (f : α → β → Bool) : List α → List β → Bool
  | [], [] => true
  | a :: as, b :: bs => f a b && all2F f as bs
  | _, _ => false

/- ## Structural sizes

All recursive functions over `AbiParam`/`Value` are written with an
explicit fuel argument (structural recursion on the fuel); the wrapper
instantiates the fuel with the structural size of the traversed
argument, which strictly decreases at every recursive descent, so the
zero-fuel branch is never reached from a wrapper. -/

mutual

def psize : AbiParam → Nat
  | .prim _ _ => 1
  | .comp _ _ cs => psizeList cs + 1

def psizeList : List AbiParam → Nat
  | [] => 0
  | p :: ps => psize p + psizeList ps

end

mutual

def vsize : Value → Nat
  | .vstr _ => 1
  | .vbool _ => 1
  | .vint _ => 1
  | .vundef => 1
  | .varr vs => vsizeList vs + 1
  | .vitem _ _ v => vsize v + 1

def vsizeList : List Value → Nat
  | [] => 0
  | v :: vs => vsize v + vsizeList vs

end

/- ## Name stripping (`stripAbiNames`) -/

def stripF : Nat → AbiParam → AbiParam
  | 0, p => p
  | fuel + 1, p =>
    match p with
    | .prim _ t => .prim none t
    | .comp _ t cs => .comp none t (cs.map (stripF fuel))

/-- `stripAbiNames` on a single parameter. -/
def stripParam (p : AbiParam) : AbiParam := stripF (psize p) p

/-- `stripAbiNames` from the encoder source: removes names, keeps type
and components. -/
def stripAbiNames (ps : List AbiParam) : List AbiParam := ps.map stripParam

/- ## Well-formed parameters

The parameters produced by viem's `parseAbi` on an accepted schema
string: a parameter carries a `components` list exactly when its type is
`tuple` or `tuple[]` (the spec's grammar: primitives, single-level
arrays via a trailing `[]`, nested tuple groups).  Claims about "every
schema accepted by the constructor" quantify over these. -/

def wfF : Nat → AbiParam → Bool
  | 0, _ => false
  | fuel + 1, p =>
    match p with
    | .prim _ t => !strStartsWith t ("tuple")
    | .comp _ t cs => (t == "tuple" || t == "tuple[]") && cs.all (wfF fuel)

def wfParam (p : AbiParam) : Bool := wfF (psize p) p

def wfParams (ps : List AbiParam) : Bool := ps.all wfParam

/- ## The ABI codec boundary

Modelled from the spec: the external viem `encodeAbiParameters` /
`decodeAbiParameters` pair ("standard contract-ABI tuple encoding" whose
binary layout is determined by the type shape alone, with the round-trip
property of §4.2).  A payload is modelled as the tuple of values it
encodes; encoding checks the values against the parameter shapes and
decoding recovers exactly the encoded values under the same shape
check. -/

def primAbiMatches (t : String) (v : Value) : Bool :=
  if t == "bool" then
    match v with
    | .vbool _ => true
    | _ => false
  else if t == "address" then
    match v with
    | .vstr s => isAddressStr s
    | _ => false
  else if t == "string" then
    match v with
    | .vstr _ => true
    | _ => false
  else if t == "bytes32" then
    match v with
    | .vstr s => isHexStr s && s.data.length == 66
    | _ => false
  else if strStartsWith t ("bytes") && (t.data.drop 5).all Char.isDigit then
    match v with
    | .vstr s => isHexStr s
    | _ => false
  else if strStartsWith t ("uint") && (t.data.drop 4).all Char.isDigit then
    match v with
    | .vint n => decide (0 ≤ n)
    | _ => false
  else if strStartsWith t ("int") && (t.data.drop 3).all Char.isDigit then
    match v with
    | .vint _ => true
    | _ => false
  else false

def abiMatchesF : Nat → AbiParam → Value → Bool
  | 0, _, _ => false
  | fuel + 1, p, v =>
    if strEndsWith p.ptype ("[]") then
      match v with
      | .varr vs => vs.all (abiMatchesF fuel (elemParam p))
      | _ => false
    else if strStartsWith p.ptype ("tuple") then
      match p with
      | .comp _ _ cs =>
        match v with
        | .varr vs => all2F (abiMatchesF fuel) cs vs
        | _ => false
      | .prim _ _ => false
    else primAbiMatches p.ptype v

/-- Does the value fit the parameter's ABI layout (so that the external
codec accepts it)? -/
def abiMatches (p : AbiParam) (v : Value) : Bool := abiMatchesF (vsize v) p v

/-- A payload is the (typed) tuple of values an ABI encoding carries. -/
abbrev Payload := List Value

def encodeAbiParameters (ps : List AbiParam) (vs : List Value) : Except String Payload :=
  if all2F abiMatches ps vs then .ok vs else .error "AbiEncodingError"

def decodeAbiParameters (ps : List AbiParam) (d : Payload) : Except String (List Value) :=
  if all2F abiMatches ps d then .ok d else .error "AbiDecodingError"

/- ## `recursivePrepareData` (first encoder variant)

The per-item value transform run by the first variant's `encodeData`
before handing the values to the ABI codec: arrays recurse on the
element parameter, tuples recurse positionally into their components
(JavaScript indexing past the end gives `undefined`), a non-hex string
in a `bytes32` slot is packed with `stringToHex(value, { size: 32 })`,
and an address-typed string is checksummed. -/

def prepF : Nat → AbiParam → Value → Value
  | 0, _, v => v
  | fuel + 1, p, v =>
    if strEndsWith p.ptype ("[]") && v.isArr then
      Value.varr (v.elems.map (prepF fuel (elemParam p)))
    else if strStartsWith p.ptype ("tuple") && p.isComp then
      match v with
      | .varr vs => Value.varr (idxApply (prepF fuel) p.comps vs)
      | _ => v
    else if p.ptype == "bytes32" then
      match v with
      | .vstr s => if !isHexStr s then Value.vstr (stringToHex32 s) else Value.vstr s
      | _ => v
    else if p.ptype == "address" then
      match v with
      | .vstr s => Value.vstr (checksumAddress s)
      | _ => v
    else v

def recursivePrepareData (p : AbiParam) (v : Value) : Value := prepF (vsize v) p v

/- ## The claim-side normalization

Defined from the spec's words, to be compared with
`recursivePrepareData`: "non-hex string values in bytes32 slots converted
to their fixed-size hex form, address strings converted to checksummed
form", with tuple- and array-typed values recursing structurally,
"matching child values positionally to child descriptors". -/

def normF : Nat → AbiParam → Value → Value
  | 0, _, v => v
  | fuel + 1, p, v =>
    if strEndsWith p.ptype ("[]") && v.isArr then
      Value.varr (v.elems.map (normF fuel (elemParam p)))
    else if strStartsWith p.ptype ("tuple") && p.isComp then
      match v with
      | .varr vs => Value.varr (List.zipWith (normF fuel) p.comps vs)
      | _ => v
    else if p.ptype == "bytes32" then
      match v with
      | .vstr s => if !isHexStr s then Value.vstr (stringToHex32 s) else v
      | _ => v
    else if p.ptype == "address" then
      match v with
      | .vstr s => Value.vstr (checksumAddress s)
      | _ => v
    else v

/-- The spec's one-directional normalization of an input value at a
descriptor (alias-to-bytes packing and address checksumming). -/
def specNormalize (p : AbiParam) (v : Value) : Value := normF (vsize v) p v

/- ## Input matching

Which caller-supplied values "positionally match" a descriptor list: the
values the external codec accepts after the prepare transform.  Differs
from `abiMatches` only at the two normalized slots: a `bytes32` slot
additionally accepts a plain ASCII string of at most 32 bytes (packed by
the transform), and an `address` slot accepts any structurally valid
address (checksummed by the transform). -/

def primInputMatches (t : String) (v : Value) : Bool :=
  if t == "bytes32" then
    match v with
    | .vstr s =>
      if isHexStr s then s.data.length == 66
      else s.data.length ≤ 32 && s.data.all (fun c => c.toNat < 128)
    | _ => false
  else primAbiMatches t v

def inputMF : Nat → AbiParam → Value → Bool
  | 0, _, _ => false
  | fuel + 1, p, v =>
    if strEndsWith p.ptype ("[]") then
      match v with
      | .varr vs => vs.all (inputMF fuel (elemParam p))
      | _ => false
    else if strStartsWith p.ptype ("tuple") then
      match p with
      | .comp _ _ cs =>
        match v with
        | .varr vs => all2F (inputMF fuel) cs vs
        | _ => false
      | .prim _ _ => false
    else primInputMatches p.ptype v

def inputMatches (p : AbiParam) (v : Value) : Bool := inputMF (vsize v) p v

/- ## `recursiveFormatDecodedData` (first encoder variant)

Reconstruction of the `SchemaItem` tree from raw decoded values: a
parameter with components formats an array value either as an array of
tuples (each element indexed against the components) or as a single
tuple; everything else is wrapped as a primitive item. -/

def formatF : Nat → AbiParam → Value → Value
  | 0, p, v => Value.vitem (p.pname.getD "") p.ptype v
  | fuel + 1, p, v =>
    if p.isComp then
      if strEndsWith p.ptype ("[]") && v.isArr then
        Value.vitem (p.pname.getD "") p.ptype
          (Value.varr (v.elems.map (fun tv =>
            Value.varr (idxApply (formatF fuel) p.comps tv.elems))))
      else if v.isArr then
        Value.vitem (p.pname.getD "") p.ptype
          (Value.varr (idxApply (formatF fuel) p.comps v.elems))
      else Value.vitem (p.pname.getD "") p.ptype v
    else Value.vitem (p.pname.getD "") p.ptype v

def recursiveFormatDecodedData (p : AbiParam) (v : Value) : Value := formatF (vsize v) p v

/- ## Underlying values

Strips the `{name, type, value}` decoration `decodeData` wraps around
decoded values, recovering the raw value tree: used to state that
decoded items carry the same underlying values as the encoded ones. -/

def underF : Nat → Value → Value
  | 0, v => v
  | fuel + 1, v =>
    match v with
    | .vitem _ _ w => underF fuel w
    | .varr vs => Value.varr (vs.map (underF fuel))
    | x => x

def underlying (v : Value) : Value := underF (vsize v) v

/- ## The `SchemaEncoder` class

`SchemaItemSig` is one entry of `this.schema` (`SchemaItemWithSignature`);
`SItemIn` is a caller-supplied `SchemaItem`; `SDecodedItem` is a
`SchemaDecodedItem` returned by `decodeData`.  `buildSchemaItem` is the
per-parameter body of the constructor loop, parameterized by the
variant's `getDefaultValueForTypeName`.  The constructor's string
parsing (`parseAbi`) is external; the embedding takes the parsed
parameter list as input, so claims quantify over every parameter list
the parser can produce. -/

structure SchemaItemSig where
  name : String
  type : String
  signature : String
  value : Value

structure SItemIn where
  name : String
  type : String
  value : Value

structure SDecodedItem where
  name : String
  type : String
  signature : String
  value : Value

/-- `getDefaultValueForTypeName` of the first encoder variant. -/
def getDefaultValueForTypeName (typeName : String) : Value :=
  if typeName == "bool" then .vbool false
  else if strHasSub typeName ("int") then .vint 0
  else if typeName == "address" then .vstr zeroAddressStr
  else if strStartsWith typeName ("bytes") then .vstr "0x"
  else if typeName == "string" then .vstr ""
  else .vstr ""

/-- `getDefaultValueForTypeName` of the second encoder variant (no
`bytes` case). -/
def getDefaultValueForTypeName2 (typeName : String) : Value :=
  if typeName == "bool" then .vbool false
  else if strHasSub typeName ("int") then .vint 0
  else if typeName == "address" then .vstr zeroAddressStr
  else .vstr ""

def buildSchemaItem (defaultFn : String → Value) (input : AbiParam) :
    Except String SchemaItemSig :=
  let nm := input.pname.getD ""
  let type0 := input.ptype
  let signatureSuffix := if nm != "" then " " ++ nm else ""
  let isArray := strEndsWith type0 ("[]")
  if strStartsWith type0 ("tuple") then
    match input with
    | .prim _ _ => .error "Missing components for tuple type"
    | .comp _ _ cs =>
      let componentTypes := joinComma (cs.map (fun c => c.ptype))
      let type1 := "(" ++ componentTypes ++ ")" ++ (if isArray then "[]" else "")
      let componentSigs := joinComma (cs.map (fun c =>
        if c.pname.getD "" != "" then c.ptype ++ " " ++ c.pname.getD "" else c.ptype))
      let signature1 :=
        "(" ++ componentSigs ++ ")" ++ (if isArray then "[]" else "") ++ signatureSuffix
      .ok { name := nm, type := type1, signature := signature1,
            value := if strHasSub type1 ("[]") then .varr [] else defaultFn type0 }
  else
    let typeName := if strHasSub type0 ("[]")
      then (⟨replaceFirst type0.data ("[]").data []⟩ : String) else type0
    .ok { name := nm, type := type0,
          signature := if nm != "" then type0 ++ " " ++ nm else type0,
          value := if strHasSub type0 ("[]") then .varr [] else defaultFn typeName }

/-- `mapM` over `Except`, written out so its equations are plain. -/
def exceptMapM (f : α → Except String β) : List α → Except String (List β)
  | [] => .ok []
  | a :: as => do
    let b ← f a
    let bs ← exceptMapM f as
    .ok (b :: bs)

structure Encoder where
  schema : List SchemaItemSig
  abiParams : List AbiParam
  abiParamsNoNames : List AbiParam

/-- The `SchemaEncoder` constructor after parsing, parameterized by the
variant's default-value table. -/
def mkEncoderWith (defaultFn : String → Value) (params : List AbiParam) :
    Except String Encoder := do
  let items ← exceptMapM (buildSchemaItem defaultFn) params
  .ok { schema := items, abiParams := params, abiParamsNoNames := stripAbiNames params }

def mkEncoder : List AbiParam → Except String Encoder :=
  mkEncoderWith getDefaultValueForTypeName

def mkEncoder2 : List AbiParam → Except String Encoder :=
  mkEncoderWith getDefaultValueForTypeName2

/-- `encodeData` of the first encoder variant: arity check, the
recursive prepare transform (the declared item types and names are never
consulted), then the external ABI encoding. -/
def encodeData1 (enc : Encoder) (params : List SItemIn) : Except String Payload :=
  if params.length != enc.schema.length then .error "Invalid number of parameters"
  else
    let data := List.zipWith (fun p it => recursivePrepareData p it.value)
      enc.abiParams params
    encodeAbiParameters enc.abiParams data

def zip3With (f : α → β → γ → δ) : List α → List β → List γ → List δ
  | a :: as, b :: bs, c :: cs => f a b c :: zip3With f as bs cs
  | _, _, _ => []

/-- `decodeData` of the first encoder variant: decode against the
name-stripped parameters, then rebuild named items. -/
def decodeData1 (enc : Encoder) (d : Payload) : Except String (List SDecodedItem) := do
  let values ← decodeAbiParameters enc.abiParamsNoNames d
  .ok (zip3With (fun s p v =>
        { name := s.name, type := s.type, signature := s.signature,
          value := recursiveFormatDecodedData p v }) enc.schema enc.abiParams values)

/- ## `encodeData` (second encoder variant) -/

/-- The sanitized-type check of the second variant's `encodeData`: the
declared type, with all whitespace removed, must equal the descriptor's
rendered type or its full signature, except that `ipfsHash` is accepted
for a `bytes32` descriptor. -/
def typeCheckFails2 (si : SchemaItemSig) (it : SItemIn) : Bool :=
  let st := removeWs it.type
  st != si.type && st != si.signature && !(st == "ipfsHash" && si.type == "bytes32")

/-- The per-item value transform of the second variant (top level only:
non-hex strings in `bytes32` slots are packed). -/
def encodeTransform2 (si : SchemaItemSig) (it : SItemIn) : Value :=
  match it.value with
  | .vstr s =>
    if si.type == "bytes32" && !isHexStr s then .vstr (stringToHex32 s) else .vstr s
  | v => v

/-- The `for (const [index, schemaItem] of this.schema.entries())` loop
of the second variant's `encodeData` (the item list has already been
checked to have the schema length, so it is consumed in step). -/
def encodeLoop2 : List SchemaItemSig → List SItemIn → Except String (List Value)
  | [], _ => .ok []
  | _ :: _, [] => .ok []
  | si :: ss, it :: its =>
    if typeCheckFails2 si it then
      .error ("Incompatible param type: " ++ removeWs it.type)
    else if it.name != si.name then
      .error ("Incompatible param name: " ++ it.name)
    else do
      let rest ← encodeLoop2 ss its
      .ok (encodeTransform2 si it :: rest)

/-- `encodeData` of the second encoder variant. -/
def encodeData2 (enc : Encoder) (params : List SItemIn) : Except String Payload :=
  if params.length != enc.schema.length then .error "Invalid number or values"
  else do
    let data ← encodeLoop2 enc.schema params
    encodeAbiParameters enc.abiParams data

/-- Pointwise conjunction over three lists (false when lengths differ). -/
def all3F (f : α → β → γ → Bool) : List α → List β → List γ → Bool
  | [], [], [] => true
  | a :: as, b :: bs, c :: cs => f a b c && all3F f as bs cs
  | _, _, _ => false

/-- The input-side condition under which the second variant's
`encodeData` can hand an item to the external ABI codec: the supplied
value fits the ABI slot of its descriptor, except that a
`bytes32`-typed schema item also accepts any non-hex string — that
string is packed by `encodeData` itself with
`stringToHex(value, { size: 32 })`, which always yields a full 32-byte
word.  In particular, an item accepted through the
`ipfsHash`-for-`bytes32` exception with a non-hex string value
satisfies this condition unconditionally. -/
def inputOk2 (si : SchemaItemSig) (p : AbiParam) (it : SItemIn) : Bool :=
  match it.value with
  | .vstr s =>
    if si.type == "bytes32" && !isHexStr s then true
    else abiMatches p (.vstr s)
  | v => abiMatches p v

/- ## The `Streams` facade

Each `async` method of the `Streams` class is embedded as a function in
the monad `M`: state passing over the growing list of contract calls
issued so far, with the `Except` layer standing for a JavaScript
exception (a rejected promise) escaping the method.  A method's
TypeScript return type `T | Error` becomes `RT T = T ⊕ String`: `inl`
for a success value, `inr` for a *returned* `Error` object — returned
errors and thrown exceptions are deliberately kept distinct, because
`deserialiseRawData` branches on `instanceof Error` of a returned value
while `try/catch` only intercepts thrown ones.

The chain RPC collaborators (`viem.getChainId`,
`getContractAddressAndAbi`, `viem.readContract`, `viem.writeContract`)
and the external `parseAbi` are modelled by an oracle `Env` fixing each
call's outcome. -/

abbrev Hex := String

abbrev Addr := String

/-- One contract interaction, as recorded in the trace. -/
inductive Call where
  | getChainId
  | contractInfo
  | computeSchemaId (schema : String)
  | isSchemaRegistered (sid : Hex)
  | schemaReverseLookup (sid : Hex)
  | parentSchemaId (sid : Hex)
  | publisherDataIndex (sid : Hex) (publisher : Addr) (key : Hex)
  | getPublisherDataForSchemaAtIndex (sid : Hex) (publisher : Addr) (idx : Int)
  | getPublisherDataForSchemaInRange (sid : Hex) (publisher : Addr) (startIdx endIdx : Int)
  | writeContract (fn : String)
deriving DecidableEq

def Call.isWrite : Call → Bool
  | .writeContract _ => true
  | _ => false

def Call.isAtIndexRead : Call → Bool
  | .getPublisherDataForSchemaAtIndex _ _ _ => true
  | _ => false

/-- The effect monad of the facade embedding: the outcome of the method
(success value, or a thrown JavaScript exception modelled by the
`Except.error` layer) together with the list of contract calls it
issued.  A failed step cuts the sequel but keeps the calls already
issued. -/
def M (α : Type) : Type := Except String α × List Call

def M.pure (a : α) : M α := (.ok a, [])

def M.bind (x : M α) (f : α → M β) : M β :=
  match x with
  | (.ok a, tr1) => ((f a).1, tr1 ++ (f a).2)
  | (.error e, tr1) => (.error e, tr1)

instance : Monad M where
  pure := M.pure
  bind := M.bind

/-- The outcome of a method run. -/
def M.res (x : M α) : Except String α := x.1

/-- The contract calls a method run issued, in order. -/
def M.calls (x : M α) : List Call := x.2

/-- A JavaScript `throw` (promise rejection). -/
def mThrow (e : String) : M α := (.error e, [])

/-- Record a contract call and deliver the oracle's outcome for it
(`Except.error` models a rejected RPC). -/
def mCall (c : Call) (r : Except String α) : M α := (r, [c])

/-- A `try { ... } catch (e) { return e }` block around `x`: a thrown
exception becomes an `inr` value, success stays `inl`. -/
def tryCatchM (x : M α) : M (α ⊕ String) :=
  match x with
  | (.ok a, tr1) => (.ok (.inl a), tr1)
  | (.error e, tr1) => (.ok (.inr e), tr1)

/-- Capture a computation's outcome without rethrowing (the settled
state of one promise inside `Promise.all`). -/
def attemptM (x : M α) : M (Except String α) :=
  match x with
  | (.ok a, tr1) => (.ok (.ok a), tr1)
  | (.error e, tr1) => (.ok (.error e), tr1)

/-- TypeScript `T | Error`. -/
abbrev RT (α : Type) := α ⊕ String

/-- The standard method shape: the whole body inside `try { ... } catch
(e) { return e instanceof Error ? e : new Error(String(e)) }`. -/
def runOp (inner : M (RT α)) : M (RT α) := do
  let r ← tryCatchM inner
  match r with
  | .inl rt => pure rt
  | .inr e => pure (.inr e)

/-- The oracle fixing every external outcome: chain identity, contract
binding, each contract view function (by name), the write call, the
external schema-text parser, and the abstract payload carried by a raw
hex blob (the bytes the ABI codec reads from it). -/
structure Env where
  chainId : Except String Int
  contractInfo : Except String Unit
  computeSchemaIdR : String → Except String Hex
  isSchemaRegisteredR : Hex → Except String Bool
  schemaReverseLookupR : Hex → Except String String
  parentSchemaIdR : Hex → Except String Hex
  publisherDataIndexR : Hex → Addr → Hex → Except String Int
  dataAtIndexR : Hex → Addr → Int → Except String Hex
  dataInRangeR : Hex → Addr → Int → Int → Except String (List Hex)
  writeResult : String → Except String (Option Hex)
  parseSchema : String → Except String (List AbiParam)
  payloadOf : Hex → Payload

/-- `await this.viem.getChainId()` followed by
`await getContractAddressAndAbi(...)` — the prologue of every method;
both throw on failure. -/
def resolveChain (env : Env) : M Unit := do
  let _ ← mCall Call.getChainId env.chainId
  mCall Call.contractInfo env.contractInfo

/-- `assertAddressIsValid` from `src/utils/validation.ts`: structural
check via `isAddress(address, { strict: false })`, then zero-address
rejection; throws on failure. -/
def assertAddressIsValid (address : String) : Except String Unit :=
  if !isAddressStr address then
    .error ("Invalid address provided: \"" ++ address ++ "\"")
  else if lowerStr address == zeroAddressStr then
    .error "Zero address (0x00...00) is not allowed in this context"
  else .ok ()

def assertAddrM (a : String) : M Unit := (assertAddressIsValid a, [])

/-- `Streams.computeSchemaId`: the `try` block catches the chain-id and
binding failures, but the final `return this.viem.readContract(...)` is
not awaited inside the `try`, so a rejected read escapes to the caller
as a thrown exception rather than a returned `Error`. -/
def computeSchemaIdM (env : Env) (schema : String) : M (RT Hex) := do
  let r ← tryCatchM (resolveChain env)
  match r with
  | .inr e => pure (.inr e)
  | .inl _ => do
    let h ← mCall (Call.computeSchemaId schema) (env.computeSchemaIdR schema)
    pure (.inl h)

/-- `Streams.isDataSchemaRegistered` (same unawaited-read shape). -/
def isDataSchemaRegisteredM (env : Env) (sid : Hex) : M (RT Bool) := do
  let r ← tryCatchM (resolveChain env)
  match r with
  | .inr e => pure (.inr e)
  | .inl _ => do
    let b ← mCall (Call.isSchemaRegistered sid) (env.isSchemaRegisteredR sid)
    pure (.inl b)

structure SchemaLookupResult where
  baseSchema : String
  finalSchema : String
  schemaId : Hex
deriving DecidableEq

/-- The tail of `schemaLookup` past the parent checks. -/
def finishLookup (base finalSchema sid : String) : M (RT SchemaLookupResult) :=
  if finalSchema.data.length == 0 then
    M.pure (.inr "Unable to compute final schema")
  else
    M.pure (.inl { baseSchema := base, finalSchema := finalSchema, schemaId := sid })

/-- The final composition step of `schemaLookup`: the
`if (parentSchema)` truthiness test and the parent checks.  Issues no
contract calls. -/
def schemaLookupStep4 (baseSchemaLookup : String) (schemaId : Hex)
    (parentSchema : Option String) : M (RT SchemaLookupResult) :=
  match parentSchema with
  | some p =>
    if p != "" then
      if (strTrim p).data.length == 0 then
        M.pure (.inr "Invalid parent schema returned from chain: zero data")
      else finishLookup baseSchemaLookup (baseSchemaLookup ++ ", " ++ p) schemaId
    else finishLookup baseSchemaLookup baseSchemaLookup schemaId
  | none => finishLookup baseSchemaLookup baseSchemaLookup schemaId

/-- After the `Promise.all` succeeded: the not-registered check, the
conditional parent reverse lookup, and the composition. -/
def schemaLookupStep3 (env : Env) (schemaId : Hex) (lookupOnchain : Bool)
    (baseSchemaLookup : String) (parentId : Hex) : M (RT SchemaLookupResult) :=
  if lookupOnchain && (strTrim baseSchemaLookup).data.length == 0 then
    M.pure (.inr "Schema is not registered on-chain")
  else do
    let parentSchema : Option String ←
      if parentId != zeroBytes32 then do
        let p ← mCall (Call.schemaReverseLookup parentId)
          (env.schemaReverseLookupR parentId)
        pure (some p)
      else pure none
    schemaLookupStep4 baseSchemaLookup schemaId parentSchema

/-- The tail of `schemaLookup` once the schema id is classified: the
`Promise.all` over the base reverse lookup and the parent id, then the
parent handling. -/
def schemaLookupStep2 (env : Env) (schemaId : Hex) (lookupOnchain : Bool)
    (schemaRef : String) : M (RT SchemaLookupResult) := do
  let baseRes ← if lookupOnchain
    then attemptM (mCall (Call.schemaReverseLookup schemaId)
      (env.schemaReverseLookupR schemaId))
    else pure (Except.ok schemaRef)
  let parentRes ← attemptM (mCall (Call.parentSchemaId schemaId)
    (env.parentSchemaIdR schemaId))
  match baseRes, parentRes with
  | .error e, _ => mThrow e
  | _, .error e => mThrow e
  | .ok baseSchemaLookup, .ok parentId =>
    schemaLookupStep3 env schemaId lookupOnchain baseSchemaLookup parentId

/-- `Streams.schemaLookup` (private; the callers' `try` blocks catch
what it throws).  An empty reference throws; a reference without the
`0x` marker goes through the public `computeSchemaId` (whose returned
`Error` is returned onward); a reference with the marker is used as the
identifier and reverse-looked-up; the base text and the parent id are
fetched by a `Promise.all`; a registered-but-empty base text returns a
not-registered `Error`; a non-zero parent id triggers the parent
reverse lookup, and the `if (parentSchema)` truthiness test skips the
whole parent block when the parent text is the empty string.  (The
source's `if (!schemaId)` null guard is unreachable — both
classification branches assign `schemaId` — and is not represented.) -/
def schemaLookupM (env : Env) (schemaRef : String) : M (RT SchemaLookupResult) := do
  if (strTrim schemaRef).data.length == 0 then mThrow "Invalid empty schema reference"
  else do
    let idStep : RT (Hex × Bool) ←
      if !strHasSub schemaRef ("0x") then do
        let r ← computeSchemaIdM env schemaRef
        match r with
        | .inr e => pure (Sum.inr e)
        | .inl h => pure (Sum.inl (h, false))
      else pure (Sum.inl (schemaRef, true))
    match idStep with
    | .inr e => pure (.inr e)
    | .inl (schemaId, lookupOnchain) =>
      schemaLookupStep2 env schemaId lookupOnchain schemaRef

/-- `new SchemaEncoder(finalSchema)` followed by
`rawData.map(raw => encoder.decodeData(raw))`: the constructor's alias
substitution and external parse, then per-blob decoding. -/
def runSchemaEncoderDecode (env : Env) (finalSchema : String) (rawData : List Hex) :
    Except String (List (List SDecodedItem)) := do
  let params ← env.parseSchema (replaceIpfsHash finalSchema)
  let enc ← mkEncoder params
  exceptMapM (fun raw => decodeData1 enc (env.payloadOf raw)) rawData

/-- `Streams.deserialiseRawData`: resolve the schema; when the lookup
*returns* any `Error` value, hand back the raw undecoded blobs; when it
succeeds, decode each blob (a decoding failure is thrown inside the
`try` and so comes back as a returned `Error`). -/
def deserialiseRawDataM (env : Env) (rawData : List Hex) (schemaId : String) :
    M (RT (List Hex ⊕ List (List SDecodedItem))) :=
  runOp do
    resolveChain env
    let lookupRes ← schemaLookupM env schemaId
    match lookupRes with
    | .inr _e => pure (.inl (.inl rawData))
    | .inl lk =>
      match runSchemaEncoderDecode env lk.finalSchema rawData with
      | .ok decoded => pure (.inl (.inr decoded))
      | .error e => mThrow e

/-- `Streams.getAtIndex`: the address assertion sits *before* the
`try`, so its exception escapes the method. -/
def getAtIndexM (env : Env) (sid : Hex) (publisher : Addr) (idx : Int) :
    M (RT (List Hex ⊕ List (List SDecodedItem))) := do
  assertAddrM publisher
  runOp do
    resolveChain env
    let raw ← mCall (Call.getPublisherDataForSchemaAtIndex sid publisher idx)
      (env.dataAtIndexR sid publisher idx)
    deserialiseRawDataM env [raw] sid

/-- `Streams.getBetweenRange` (same shape over the range read). -/
def getBetweenRangeM (env : Env) (sid : Hex) (publisher : Addr) (startIdx endIdx : Int) :
    M (RT (List Hex ⊕ List (List SDecodedItem))) := do
  assertAddrM publisher
  runOp do
    resolveChain env
    let raw ← mCall (Call.getPublisherDataForSchemaInRange sid publisher startIdx endIdx)
      (env.dataInRangeR sid publisher startIdx endIdx)
    deserialiseRawDataM env raw sid

/-- `Streams.getByKey`: reads the one-based index stored for the key,
subtracts one, and delegates to `getAtIndex`. -/
def getByKeyM (env : Env) (sid : Hex) (publisher : Addr) (key : Hex) :
    M (RT (List Hex ⊕ List (List SDecodedItem))) := do
  assertAddrM publisher
  runOp do
    resolveChain env
    let index ← mCall (Call.publisherDataIndex sid publisher key)
      (env.publisherDataIndexR sid publisher key)
    let adjustedIndex := index - 1
    getAtIndexM env sid publisher adjustedIndex

/-- A `registerDataSchemas` entry. -/
structure DataSchemaReg where
  schemaName : String
  schema : String
  parentSchemaId : Option Hex

/-- The `parentSchemaId ? parentSchemaId : zeroBytes32` normalization. -/
def normalizeReg (r : DataSchemaReg) : DataSchemaReg :=
  { r with parentSchemaId := some (r.parentSchemaId.getD zeroBytes32) }

/-- One element of the `Promise.all` in `registerDataSchemas` with
`ignoreRegisteredSchemas`: compute the schema id, then the registration
status; a returned `Error` from either step becomes the element. -/
def regStatusM (env : Env) (r : DataSchemaReg) :
    M ((DataSchemaReg × Hex × Bool) ⊕ String) := do
  let cr ← computeSchemaIdM env r.schema
  match cr with
  | .inr e => pure (.inr e)
  | .inl sid => do
    let ir ← isDataSchemaRegisteredM env sid
    match ir with
    | .inr e => pure (.inr e)
    | .inl b => pure (.inl (r, sid, b))

/-- `mapM` over `M`, written out so its equations are plain. -/
def mMapM (f : α → M β) : List α → M (List β)
  | [] => M.pure []
  | a :: as => do
    let b ← f a
    let bs ← mMapM f as
    pure (b :: bs)

/-- The `.map(r => { if (r instanceof Error) throw r; return r })` pass:
throw the first `Error` element, else keep the list. -/
def firstErrThrow : List (α ⊕ String) → M (List α)
  | [] => M.pure []
  | .inr e :: _ => mThrow e
  | .inl a :: rest => do
    let as ← firstErrThrow rest
    pure (a :: as)

/-- `Streams.registerDataSchemas`. -/
def registerDataSchemasM (env : Env) (regs : List DataSchemaReg)
    (ignoreRegisteredSchemas : Bool) : M (RT Hex) :=
  runOp do
    resolveChain env
    let schemasToRegister ←
      if ignoreRegisteredSchemas then do
        let statuses ← mMapM (fun r => regStatusM env r) regs
        let withStatus ← firstErrThrow statuses
        pure ((withStatus.filter (fun x => !x.2.2)).map (fun x => normalizeReg x.1))
      else pure (regs.map normalizeReg)
    if schemasToRegister.length == 0 then mThrow "Nothing to register"
    else do
      let tx ← mCall (Call.writeContract "registerSchemas")
        (env.writeResult "registerSchemas")
      match tx with
      | none => pure (.inr "Failed to send transaction - check wallet client")
      | some h => pure (.inl h)

/- ### Concrete oracle environments used by closed theorems -/

/-- An environment every one of whose external calls fails (no field is
consulted by the theorems that use it except where stated). -/
def envFail : Env where
  chainId := .error "rpc down"
  contractInfo := .error "rpc down"
  computeSchemaIdR := fun _ => .error "rpc down"
  isSchemaRegisteredR := fun _ => .error "rpc down"
  schemaReverseLookupR := fun _ => .error "rpc down"
  parentSchemaIdR := fun _ => .error "rpc down"
  publisherDataIndexR := fun _ _ _ => .error "rpc down"
  dataAtIndexR := fun _ _ _ => .error "rpc down"
  dataInRangeR := fun _ _ _ _ => .error "rpc down"
  writeResult := fun _ => .error "rpc down"
  parseSchema := fun _ => .error "parse failure"
  payloadOf := fun _ => []

/-- An environment in which the schema `0xabc` resolves with a base text
but its (non-zero) parent id `0x1` reverse-looks-up to a whitespace-only
text, making `schemaLookup` return the invalid-parent `Error`. -/
def envBadParent : Env :=
  { envFail with
    chainId := .ok 1
    contractInfo := .ok ()
    schemaReverseLookupR := fun s =>
      if s == "0xabc" then .ok "uint256 a" else if s == "0x1" then .ok " " else .ok ""
    parentSchemaIdR := fun _ => .ok "0x1" }

/-- An environment in which the schema `0xabc` has base text
`uint256 a` and a (non-zero) parent `0x2` with text `address b`. -/
def envParentOk : Env :=
  { envFail with
    chainId := .ok 1
    contractInfo := .ok ()
    schemaReverseLookupR := fun s =>
      if s == "0xabc" then .ok "uint256 a"
      else if s == "0x2" then .ok "address b" else .ok ""
    parentSchemaIdR := fun _ => .ok "0x2" }

/-- An environment in which the schema `0xabc` has base text
`uint256 a` and a (non-zero) parent `0x2` whose registered text is the
empty string. -/
def envParentEmpty : Env :=
  { envFail with
    chainId := .ok 1
    contractInfo := .ok ()
    schemaReverseLookupR := fun s =>
      if s == "0xabc" then .ok "uint256 a" else .ok ""
    parentSchemaIdR := fun _ => .ok "0x2" }

/-- An environment for text-reference resolution: the contract's
`computeSchemaId` view call answers `0xc0ffee`, and the schema has no
parent. -/
def envTextRef : Env :=
  { envFail with
    chainId := .ok 1
    contractInfo := .ok ()
    computeSchemaIdR := fun _ => .ok "0xc0ffee"
    parentSchemaIdR := fun _ => .ok zeroBytes32 }

/-- `envTextRef` with a different `computeSchemaId` answer from the
contract: used to exhibit that the resolved identifier tracks the
contract's answer rather than any local computation on the text. -/
def envTextRef2 : Env :=
  { envTextRef with computeSchemaIdR := fun _ => .ok "0xd00d" }

/-- An environment for the key-to-index witness: the key's stored index
is `1`, and every later read fails (which `getAtIndex` converts to a
returned `Error`; the at-index read itself is still issued). -/
def envKeyIndex : Env :=
  { envFail with
    chainId := .ok 1
    contractInfo := .ok ()
    publisherDataIndexR := fun _ _ _ => .ok 1
    dataAtIndexR := fun _ _ _ => .ok "0xdead" }

/-- An environment in which every schema is already registered. -/
def envAllRegistered : Env :=
  { envFail with
    chainId := .ok 1
    contractInfo := .ok ()
    computeSchemaIdR := fun _ => .ok "0xc0ffee"
    isSchemaRegisteredR := fun _ => .ok true
    writeResult := fun _ => .ok (some "0xbeef") }

/-- A structurally valid, non-zero test address. -/
def addrOk : String := "0x00000000000000000000000000000000000000a1"

end StreamsSDK

namespace StreamsSDK

/- ## Theorems

General-purpose lemmas first, then per-claim theorems.  Each claim's
theorem is marked with its claim id. -/

theorem listStartsWith_append (pat tail : List Char) :
    listStartsWith (pat ++ tail) pat = true := by
  induction pat with
  | nil => cases tail <;> rfl
  | cons c cs ih => simp [listStartsWith, ih]

theorem takeWhile_all_of (p : Char → Bool) :
    ∀ (l : List Char), (∀ c ∈ l, p c = true) → l.takeWhile p = l := by
  intro l
  induction l with
  | nil => intro _; rfl
  | cons c cs ih =>
    intro h
    have hc : p c = true := h c (by simp)
    have hcs : cs.takeWhile p = cs := ih (fun x hx => h x (by simp [hx]))
    simp [List.takeWhile, hc, hcs]

theorem replaceIpfsAux_nil (f : Nat) : replaceIpfsAux f [] = [] := by
  cases f <;> rfl

theorem replaceIpfsAux_step_none (f : Nat) (c : Char) (cs : List Char)
    (h : matchIpfsAt (c :: cs) = none) :
    replaceIpfsAux (f + 1) (c :: cs) = c :: replaceIpfsAux f cs := by
  simp [replaceIpfsAux, h]

theorem matchIpfsAt_not_i (c : Char) (hc : (c == 'i') = false) (cs : List Char) :
    matchIpfsAt (c :: cs) = none := by
  have hpat : ipfsPat = 'i' :: ("pfsHash ").data := rfl
  simp [matchIpfsAt, hpat, listStartsWith, hc]

theorem matchIpfsAt_at_pat (w : List Char) (hw : w ≠ [])
    (hns : ∀ c ∈ w, isWsChar c = false) :
    matchIpfsAt (ipfsPat ++ w) = some (w, []) := by
  have h1 : listStartsWith (ipfsPat ++ w) ipfsPat = true := listStartsWith_append _ _
  have h2 : (ipfsPat ++ w).drop ipfsPat.length = w := List.drop_left ipfsPat w
  have h3 : w.takeWhile (fun c => !isWsChar c) = w :=
    takeWhile_all_of _ w (fun c hc => by simp [hns c hc])
  have h4 : w.isEmpty = false := by
    cases w with
    | nil => exact absurd rfl hw
    | cons a as => rfl
  simp [matchIpfsAt, h1, h2, h3, h4, List.drop_length]

theorem replaceIpfsAux_at_pat (w : List Char) (hw : w ≠ [])
    (hns : ∀ c ∈ w, isWsChar c = false) (f : Nat) :
    replaceIpfsAux (f + 1) (ipfsPat ++ w) = ("bytes32 ").data ++ w := by
  have hne : ipfsPat ++ w ≠ [] := by simp [ipfsPat]
  obtain ⟨c, cs, hcs⟩ : ∃ c cs, ipfsPat ++ w = c :: cs := by
    cases h : ipfsPat ++ w with
    | nil => exact absurd h hne
    | cons c cs => exact ⟨c, cs, rfl⟩
  rw [hcs]
  have hm : matchIpfsAt (c :: cs) = some (w, []) := by
    rw [← hcs]; exact matchIpfsAt_at_pat w hw hns
  simp [replaceIpfsAux, hm, replaceIpfsAux_nil]

/-- Claim C6 (counterexample): the claim says a schema string in which
`ipfsHash` occurs only as a strict substring of a longer type token is
left uncorrupted by the substitution pass; but the regex is not anchored
to a token start, so `"myipfsHash x"` is rewritten to `"mybytes32 x"`,
corrupting the token `myipfsHash`. -/
theorem C6_substitution_corrupts_token_counterexample :
    replaceIpfsHash ("myipfsHash x") = "mybytes32 x" ∧
      replaceIpfsHash ("myipfsHash x") ≠ "myipfsHash x" := by
  constructor <;> decide

/-- Claim C6 (amended): the substitution is anchored only by the
trailing space and field name, not by a preceding token boundary: in
`"my" ++ "ipfsHash " ++ w` (the token `myipfsHash` followed by a field
name `w`), the embedded alias is rewritten, producing
`"my" ++ "bytes32 " ++ w`. -/
theorem C6_substitution_not_token_anchored (w : String) (hw : w ≠ "")
    (hns : ∀ c ∈ w.data, isWsChar c = false) :
    replaceIpfsHash ("myipfsHash " ++ w) = "mybytes32 " ++ w := by
  have hwl : w.data ≠ [] := fun h => hw (by cases w; simp_all)
  have hdata : ("myipfsHash " ++ w).data = 'm' :: 'y' :: (ipfsPat ++ w.data) := by
    rw [String.data_append]; rfl
  have hlen : ("myipfsHash " ++ w).data.length = (w.data.length + 9) + 1 + 1 := by
    rw [hdata]; simp [ipfsPat]
  apply String.ext
  show replaceIpfsAux ("myipfsHash " ++ w).data.length ("myipfsHash " ++ w).data
      = ("mybytes32 " ++ w).data
  rw [hlen, hdata]
  have hm : (('m' : Char) == 'i') = false := by decide
  have hy : (('y' : Char) == 'i') = false := by decide
  rw [replaceIpfsAux_step_none (w.data.length + 9 + 1) 'm' _
    (matchIpfsAt_not_i 'm' hm _)]
  rw [replaceIpfsAux_step_none (w.data.length + 9) 'y' _
    (matchIpfsAt_not_i 'y' hy _)]
  rw [replaceIpfsAux_at_pat w.data hwl hns]
  rw [String.data_append]
  rfl

/-- Claim C6 (witness for the amended theorem), at the field name `x`. -/
theorem C6_substitution_not_token_anchored_witness :
    replaceIpfsHash ("myipfsHash " ++ "x") = "mybytes32 " ++ "x" :=
  C6_substitution_not_token_anchored "x" (by decide) (by decide)

/- ### Monad unfolding lemmas -/

@[simp] theorem bind_eq_mbind (x : M α) (f : α → M β) : x >>= f = M.bind x f := rfl

@[simp] theorem pure_eq_mpure (a : α) : (pure a : M α) = M.pure a := rfl

@[simp] theorem mres_pair (r : Except String α) (tr : List Call) :
    M.res (r, tr) = r := rfl

@[simp] theorem mcalls_pair (r : Except String α) (tr : List Call) :
    M.calls (r, tr) = tr := rfl

theorem strLen_ne_zero (s : String) (h : s.data ≠ []) : ¬(s.length = 0) := by
  intro h0
  exact h (List.length_eq_zero.mp h0)

theorem strTrim_data_ne_of_ne (s : String) (h : (strTrim s).data ≠ []) : ¬(s = "") := by
  intro hs
  subst hs
  exact h rfl

set_option maxRecDepth 8000

/-- Claim C4 (amended): for a resolution that reaches the parent check
(the base schema resolved, with non-blank text): an all-zero parent id
yields `finalSchema = baseSchema`; a non-zero parent id whose registered
text is the *empty string* also yields `finalSchema = baseSchema`
without error (the `if (parentSchema)` truthiness test skips the parent
block); a non-empty but whitespace-only parent text fails with the
invalid-parent error; a parent text with non-blank content yields
`baseSchema ++ ", " ++ parentText`. -/
theorem C4_parent_composition (env : Env) (ref base : String) (sid pid : Hex)
    (hreach :
      (strHasSub ref ("0x") = true ∧ sid = ref ∧
        env.schemaReverseLookupR ref = .ok base) ∨
      (strHasSub ref ("0x") = false ∧ (∃ cid, env.chainId = .ok cid) ∧
        env.contractInfo = .ok () ∧ env.computeSchemaIdR ref = .ok sid ∧ base = ref))
    (htrimRef : (strTrim ref).data ≠ [])
    (htrimBase : (strTrim base).data ≠ [])
    (hparent : env.parentSchemaIdR sid = .ok pid) :
    (pid = zeroBytes32 →
      (schemaLookupM env ref).res =
        .ok (.inl { baseSchema := base, finalSchema := base, schemaId := sid })) ∧
    (∀ ptext, pid ≠ zeroBytes32 → env.schemaReverseLookupR pid = .ok ptext →
      ((ptext = "" →
        (schemaLookupM env ref).res =
          .ok (.inl { baseSchema := base, finalSchema := base, schemaId := sid })) ∧
       ((strTrim ptext).data = [] → ptext ≠ "" →
        (schemaLookupM env ref).res =
          .ok (.inr "Invalid parent schema returned from chain: zero data")) ∧
       ((strTrim ptext).data ≠ [] →
        (schemaLookupM env ref).res =
          .ok (.inl { baseSchema := base, finalSchema := base ++ ", " ++ ptext,
                      schemaId := sid })))) := by
  have hbaseNe : base.data ≠ [] := by
    intro hb
    apply htrimBase
    have hb2 : base = "" := by cases base; simp_all
    simp [hb2, strTrim]
  have hbaseLen : ¬(base.length = 0) := strLen_ne_zero _ hbaseNe
  have hrefLen : ¬((strTrim ref).length = 0) := strLen_ne_zero _ htrimRef
  have hbaseTrimLen : ¬((strTrim base).length = 0) := strLen_ne_zero _ htrimBase
  rcases hreach with ⟨hhex, hsid, hrev⟩ | ⟨hhex, ⟨cid, hcid⟩, hinfo, hcomp, hbase⟩
  · subst hsid
    refine ⟨?_, ?_⟩
    · intro hzero
      simp [schemaLookupM, schemaLookupStep2, schemaLookupStep3, schemaLookupStep4, hrefLen, hhex, attemptM, mCall, mThrow, finishLookup,
        M.bind, M.pure, M.res, hrev, hparent, hbaseTrimLen, hzero, hbaseLen]
    · intro ptext hnz hptext
      refine ⟨?_, ?_, ?_⟩
      · intro hempty
        subst hempty
        simp [schemaLookupM, schemaLookupStep2, schemaLookupStep3, schemaLookupStep4, hrefLen, hhex, attemptM, mCall, mThrow, finishLookup,
          M.bind, M.pure, M.res, hrev, hparent, hbaseTrimLen, hnz, hptext, hbaseLen]
      · intro htrimP hne
        have hplen : (strTrim ptext).length = 0 := by
          simp [String.length, htrimP]
        simp [schemaLookupM, schemaLookupStep2, schemaLookupStep3, schemaLookupStep4, hrefLen, hhex, attemptM, mCall, mThrow, finishLookup,
          M.bind, M.pure, M.res, hrev, hparent, hbaseTrimLen, hnz, hptext, hne,
          hplen, hbaseLen]
      · intro htrimP
        have hne : ¬(ptext = "") := strTrim_data_ne_of_ne _ htrimP
        have hplen : ¬((strTrim ptext).length = 0) := strLen_ne_zero _ htrimP
        have hcatLen : ¬((base ++ ", " ++ ptext).length = 0) := by
          rw [String.length_append, String.length_append]
          intro h0
          exact hbaseLen (by omega)
        simp [schemaLookupM, schemaLookupStep2, schemaLookupStep3, schemaLookupStep4, hrefLen, hhex, attemptM, mCall, mThrow, finishLookup,
          M.bind, M.pure, M.res, hrev, hparent, hbaseTrimLen, hnz, hptext, hne,
          hplen, hcatLen]
  · subst hbase
    refine ⟨?_, ?_⟩
    · intro hzero
      simp [schemaLookupM, schemaLookupStep2, schemaLookupStep3, schemaLookupStep4, hrefLen, hhex, computeSchemaIdM, resolveChain, tryCatchM,
        attemptM, mCall, mThrow, finishLookup, M.bind, M.pure, M.res, hcid, hinfo,
        hcomp, hparent, hzero, hbaseLen]
    · intro ptext hnz hptext
      refine ⟨?_, ?_, ?_⟩
      · intro hempty
        subst hempty
        simp [schemaLookupM, schemaLookupStep2, schemaLookupStep3, schemaLookupStep4, hrefLen, hhex, computeSchemaIdM, resolveChain, tryCatchM,
          attemptM, mCall, mThrow, finishLookup, M.bind, M.pure, M.res, hcid, hinfo,
          hcomp, hparent, hnz, hptext, hbaseLen]
      · intro htrimP hne
        have hplen : (strTrim ptext).length = 0 := by
          simp [String.length, htrimP]
        simp [schemaLookupM, schemaLookupStep2, schemaLookupStep3, schemaLookupStep4, hrefLen, hhex, computeSchemaIdM, resolveChain, tryCatchM,
          attemptM, mCall, mThrow, finishLookup, M.bind, M.pure, M.res, hcid, hinfo,
          hcomp, hparent, hnz, hptext, hne, hplen, hbaseLen]
      · intro htrimP
        have hne : ¬(ptext = "") := strTrim_data_ne_of_ne _ htrimP
        have hplen : ¬((strTrim ptext).length = 0) := strLen_ne_zero _ htrimP
        have hcatLen : ¬((base ++ ", " ++ ptext).length = 0) := by
          rw [String.length_append, String.length_append]
          intro h0
          exact hbaseLen (by omega)
        simp [schemaLookupM, schemaLookupStep2, schemaLookupStep3, schemaLookupStep4, hrefLen, hhex, computeSchemaIdM, resolveChain, tryCatchM,
          attemptM, mCall, mThrow, finishLookup, M.bind, M.pure, M.res, hcid, hinfo,
          hcomp, hparent, hnz, hptext, hne, hplen, hcatLen]

/-- Claim C4 (witness), at the concrete environment `envParentOk`:
resolving `0xabc` composes `uint256 a` with parent text `address b`. -/
theorem C4_parent_composition_witness :
    (schemaLookupM envParentOk "0xabc").res =
      .ok (.inl { baseSchema := "uint256 a", finalSchema := "uint256 a, address b",
                  schemaId := "0xabc" }) := by
  have h := C4_parent_composition envParentOk "0xabc" "uint256 a" "0xabc" "0x2"
    (Or.inl ⟨by decide, rfl, by rfl⟩) (by decide) (by decide) (by rfl)
  exact (h.2 "address b" (by decide) (by rfl)).2.2 (by decide)

/-- Claim C4 (counterexample): the claim says an empty registered
parent text makes resolution fail with the invalid-parent error; in the
code the `if (parentSchema)` truthiness test is false for the empty
string, so resolution *succeeds* with `finalSchema = baseSchema` — here
on schema `0xabc` whose non-zero parent `0x2` has empty text. -/
theorem C4_empty_parent_text_counterexample :
    envParentEmpty.parentSchemaIdR "0xabc" = .ok "0x2" ∧
    envParentEmpty.schemaReverseLookupR "0x2" = .ok "" ∧
    (schemaLookupM envParentEmpty "0xabc").res =
      .ok (.inl { baseSchema := "uint256 a", finalSchema := "uint256 a",
                  schemaId := "0xabc" }) :=
  ⟨rfl, rfl, rfl⟩

/-- Claim C3 (amended): `deserialiseRawData` returns the raw undecoded
payload whenever schema resolution returns *any* error value — not only
the not-registered case: schema-id-computation failures and the
invalid-parent failure also fall back to raw data.  (Only failures that
are thrown, such as rejected reads, surface as an `Error` from
`deserialiseRawData`.) -/
theorem C3_raw_fallback_on_any_lookup_error (env : Env) (rawData : List Hex)
    (ref : String) (e : String) (cid : Int)
    (hcid : env.chainId = .ok cid) (hinfo : env.contractInfo = .ok ())
    (hlookup : (schemaLookupM env ref).res = .ok (.inr e)) :
    (deserialiseRawDataM env rawData ref).res = .ok (.inl (.inl rawData)) := by
  have h1 : (schemaLookupM env ref).1 = .ok (.inr e) := hlookup
  rcases hx : schemaLookupM env ref with ⟨r, tr⟩
  rw [hx] at h1
  simp only at h1
  subst h1
  simp [deserialiseRawDataM, runOp, resolveChain, tryCatchM, mCall, mThrow,
    M.bind, M.pure, M.res, hcid, hinfo, hx]

/-- Claim C3 (witness for the amended theorem): in `envBadParent` the
resolver fails with the invalid-parent error — not the not-registered
case — and the raw payload `0xdead` is still returned undecoded. -/
theorem C3_raw_fallback_on_any_lookup_error_witness :
    (deserialiseRawDataM envBadParent ["0xdead"] "0xabc").res =
      .ok (.inl (.inl ["0xdead"])) :=
  C3_raw_fallback_on_any_lookup_error envBadParent ["0xdead"] "0xabc"
    "Invalid parent schema returned from chain: zero data" 1 rfl rfl rfl

/-- Claim C3 (counterexample): the claim says the raw payload is
returned *only* when the schema is not publicly registered, and that an
invalid-parent resolver failure yields an error value; but with
`envBadParent` the resolver reports the invalid-parent error (schema
`0xabc` is registered with text `uint256 a`; its parent text is
whitespace-only) and `deserialiseRawData` still returns the raw
payload instead of an error. -/
theorem C3_raw_fallback_counterexample :
    (schemaLookupM envBadParent "0xabc").res =
      .ok (.inr "Invalid parent schema returned from chain: zero data") ∧
    (deserialiseRawDataM envBadParent ["0xdead"] "0xabc").res =
      .ok (.inl (.inl ["0xdead"])) :=
  ⟨rfl, rfl⟩

/-- Claim C5 (amended): a schema reference without the `0x` marker is
treated as literal schema text (it becomes the base schema unchanged),
but its canonical identifier is *not* computed locally: the resolver
issues the contract's `computeSchemaId` view call over the network and
uses whatever identifier that call returns. -/
theorem C5_text_schema_id_via_contract_read (env : Env) (ref : String)
    (sid : Hex) (cid : Int)
    (hhex : strHasSub ref ("0x") = false)
    (htrimRef : (strTrim ref).data ≠ [])
    (hcid : env.chainId = .ok cid) (hinfo : env.contractInfo = .ok ())
    (hcomp : env.computeSchemaIdR ref = .ok sid)
    (hparent : env.parentSchemaIdR sid = .ok zeroBytes32) :
    (schemaLookupM env ref).res =
      .ok (.inl { baseSchema := ref, finalSchema := ref, schemaId := sid }) ∧
    (schemaLookupM env ref).calls =
      [Call.getChainId, Call.contractInfo, Call.computeSchemaId ref,
       Call.parentSchemaId sid] ∧
    Call.computeSchemaId ref ∈ (schemaLookupM env ref).calls := by
  have hrefLen : ¬((strTrim ref).length = 0) := strLen_ne_zero _ htrimRef
  have hrefNe : ref.data ≠ [] := by
    intro hb
    apply htrimRef
    have hb2 : ref = "" := by cases ref; simp_all
    simp [hb2, strTrim]
  have hrefLen2 : ¬(ref.length = 0) := strLen_ne_zero _ hrefNe
  refine ⟨?_, ?_, ?_⟩ <;>
    simp [schemaLookupM, schemaLookupStep2, schemaLookupStep3, schemaLookupStep4, computeSchemaIdM, resolveChain, tryCatchM, attemptM,
      mCall, mThrow, finishLookup, M.bind, M.pure, M.res, M.calls, hhex, hrefLen,
      hcid, hinfo, hcomp, hparent, hrefLen2]

/-- Claim C5 (witness for the amended theorem), at `envTextRef` and the
literal schema text `uint256 a`. -/
theorem C5_text_schema_id_via_contract_read_witness :
    (schemaLookupM envTextRef "uint256 a").res =
      .ok (.inl { baseSchema := "uint256 a", finalSchema := "uint256 a",
                  schemaId := "0xc0ffee" }) ∧
    (schemaLookupM envTextRef "uint256 a").calls =
      [Call.getChainId, Call.contractInfo, Call.computeSchemaId "uint256 a",
       Call.parentSchemaId "0xc0ffee"] ∧
    Call.computeSchemaId "uint256 a" ∈ (schemaLookupM envTextRef "uint256 a").calls :=
  C5_text_schema_id_via_contract_read envTextRef "uint256 a" "0xc0ffee" 1
    (by decide) (by decide) rfl rfl rfl rfl

/- ### Trace-shape lemmas

`schemaLookup` and `deserialiseRawData` issue only chain-identity,
binding, `computeSchemaId`, `schemaReverseLookup` and `parentSchemaId`
interactions — in particular never a data-at-index read and never a
write.  These facts isolate `getByKey`'s single at-index read. -/

theorem Call.benign_def (c : Call) :
    (c.isAtIndexRead = false ∧ c.isWrite = false) ↔
      (c.isAtIndexRead || c.isWrite) = false := by
  cases c <;> simp [Call.isAtIndexRead, Call.isWrite]

theorem calls_tryCatchM (x : M α) : (tryCatchM x).2 = x.2 := by
  rcases x with ⟨r, tr⟩
  cases r <;> rfl

theorem calls_attemptM (x : M α) : (attemptM x).2 = x.2 := by
  rcases x with ⟨r, tr⟩
  cases r <;> rfl

theorem calls_runOp (x : M (RT α)) : (runOp x).2 = x.2 := by
  rcases x with ⟨r, tr⟩
  cases r with
  | ok a => cases a <;> simp [runOp, tryCatchM, M.bind, M.pure]
  | error e => simp [runOp, tryCatchM, M.bind, M.pure]

theorem calls_finishLookup (b f s : String) : (finishLookup b f s).2 = [] := by
  unfold finishLookup
  split <;> rfl

theorem mem_calls_bind {x : M α} {f : α → M β} {c : Call}
    (hc : c ∈ (M.bind x f).2) : c ∈ x.2 ∨ ∃ a, c ∈ (f a).2 := by
  rcases x with ⟨r, tr⟩
  cases r with
  | ok a =>
    simp only [M.bind, List.mem_append] at hc
    rcases hc with h | h
    · exact Or.inl h
    · exact Or.inr ⟨a, h⟩
  | error e => exact Or.inl hc

theorem resolveChain_calls (env : Env) :
    ∀ c ∈ (resolveChain env).2, c = Call.getChainId ∨ c = Call.contractInfo := by
  intro c hc
  unfold resolveChain at hc
  simp only [bind_eq_mbind, pure_eq_mpure] at hc
  rcases mem_calls_bind hc with h | ⟨_, h⟩ <;> simp [mCall] at h <;> simp [h]

theorem computeSchemaIdM_calls (env : Env) (s : String) :
    ∀ c ∈ (computeSchemaIdM env s).2,
      c = Call.getChainId ∨ c = Call.contractInfo ∨ c = Call.computeSchemaId s := by
  intro c hc
  unfold computeSchemaIdM at hc
  simp only [bind_eq_mbind, pure_eq_mpure] at hc
  rcases mem_calls_bind hc with h | ⟨a, h⟩
  · rw [calls_tryCatchM] at h
    rcases resolveChain_calls env c h with h2 | h2 <;> simp [h2]
  · cases a with
    | inr e => simp [M.pure] at h
    | inl u =>
      rcases mem_calls_bind h with h2 | ⟨_, h2⟩ <;> simp [mCall, M.pure] at h2
      simp [h2]

theorem isDataSchemaRegisteredM_calls (env : Env) (s : Hex) :
    ∀ c ∈ (isDataSchemaRegisteredM env s).2,
      c = Call.getChainId ∨ c = Call.contractInfo ∨ c = Call.isSchemaRegistered s := by
  intro c hc
  unfold isDataSchemaRegisteredM at hc
  simp only [bind_eq_mbind, pure_eq_mpure] at hc
  rcases mem_calls_bind hc with h | ⟨a, h⟩
  · rw [calls_tryCatchM] at h
    rcases resolveChain_calls env c h with h2 | h2 <;> simp [h2]
  · cases a with
    | inr e => simp [M.pure] at h
    | inl u =>
      rcases mem_calls_bind h with h2 | ⟨_, h2⟩ <;> simp [mCall, M.pure] at h2
      simp [h2]

theorem calls_schemaLookupStep4 (base : String) (sid : Hex) (ps : Option String) :
    (schemaLookupStep4 base sid ps).2 = [] := by
  rcases ps with _ | p
  · simp [schemaLookupStep4, calls_finishLookup]
  · by_cases h1 : (p != "") = true
    · by_cases h2 : (strTrim p).length = 0
      · simp [schemaLookupStep4, h1, h2, M.pure]
      · simp [schemaLookupStep4, h1, h2, calls_finishLookup]
    · simp [schemaLookupStep4, h1, calls_finishLookup]

theorem schemaLookupStep3_calls_benign (env : Env) (sid : Hex) (look : Bool)
    (base : String) (pid : Hex) :
    ∀ c ∈ (schemaLookupStep3 env sid look base pid).2,
      c.isAtIndexRead = false ∧ c.isWrite = false := by
  intro c hc
  unfold schemaLookupStep3 at hc
  simp only [bind_eq_mbind, pure_eq_mpure] at hc
  by_cases h0 : (look && ((strTrim base).data.length == 0)) = true
  · rw [if_pos h0] at hc
    simp [M.pure] at hc
  · rw [if_neg h0] at hc
    by_cases h1 : (pid != zeroBytes32) = true
    · rw [if_pos h1] at hc
      rcases mem_calls_bind hc with h2 | ⟨p, h2⟩
      · simp [mCall] at h2
        simp [h2, Call.isAtIndexRead, Call.isWrite]
      · rcases mem_calls_bind h2 with h3 | ⟨y, h3⟩
        · simp [M.pure] at h3
        · rw [calls_schemaLookupStep4] at h3
          simp at h3
    · rw [if_neg h1] at hc
      rcases mem_calls_bind hc with h2 | ⟨y, h2⟩
      · simp [M.pure] at h2
      · rw [calls_schemaLookupStep4] at h2
        simp at h2

theorem schemaLookupStep2_calls_benign (env : Env) (sid : Hex) (look : Bool)
    (ref : String) :
    ∀ c ∈ (schemaLookupStep2 env sid look ref).2,
      c.isAtIndexRead = false ∧ c.isWrite = false := by
  intro c hc
  unfold schemaLookupStep2 at hc
  simp only [bind_eq_mbind, pure_eq_mpure] at hc
  have tail : ∀ (baseRes : Except String String),
      c ∈ (M.bind (attemptM (mCall (Call.parentSchemaId sid) (env.parentSchemaIdR sid)))
        (fun parentRes =>
          match baseRes, parentRes with
          | .error e, _ => mThrow e
          | _, .error e => mThrow e
          | .ok base, .ok pid => schemaLookupStep3 env sid look base pid)).2 →
      c.isAtIndexRead = false ∧ c.isWrite = false := by
    intro baseRes h
    rcases mem_calls_bind h with h3 | ⟨parentRes, h3⟩
    · rw [calls_attemptM] at h3
      simp [mCall] at h3
      simp [h3, Call.isAtIndexRead, Call.isWrite]
    · cases baseRes with
      | error e => simp [mThrow] at h3
      | ok base =>
        cases parentRes with
        | error e => simp [mThrow] at h3
        | ok pid => exact schemaLookupStep3_calls_benign env sid look base pid c h3
  cases look with
  | true =>
    rw [if_pos rfl] at hc
    rcases mem_calls_bind hc with h2 | ⟨baseRes, h2⟩
    · rw [calls_attemptM] at h2
      simp [mCall] at h2
      simp [h2, Call.isAtIndexRead, Call.isWrite]
    · exact tail baseRes h2
  | false =>
    simp only [Bool.false_eq_true, if_false] at hc
    rcases mem_calls_bind hc with h2 | ⟨baseRes, h2⟩
    · simp [M.pure] at h2
    · exact tail baseRes h2

theorem schemaLookupM_calls_benign (env : Env) (ref : String) :
    ∀ c ∈ (schemaLookupM env ref).2,
      c.isAtIndexRead = false ∧ c.isWrite = false := by
  intro c hc
  unfold schemaLookupM at hc
  simp only [bind_eq_mbind, pure_eq_mpure] at hc
  by_cases h0 : ((strTrim ref).data.length == 0) = true
  · rw [if_pos h0] at hc
    simp [mThrow] at hc
  · rw [if_neg h0] at hc
    by_cases h1 : (!strHasSub ref ("0x")) = true
    · rw [if_pos h1] at hc
      rcases mem_calls_bind hc with h2 | ⟨r, h2⟩
      · rcases computeSchemaIdM_calls env ref c h2 with h3 | h3 | h3 <;>
          simp [h3, Call.isAtIndexRead, Call.isWrite]
      · cases r with
        | inr e =>
          rcases mem_calls_bind h2 with h3 | ⟨y, h3⟩
          · simp [M.pure] at h3
          · cases y with
            | inr e2 => simp [M.pure] at h3
            | inl pr =>
              obtain ⟨sid, look⟩ := pr
              exact schemaLookupStep2_calls_benign env sid look ref c h3
        | inl h =>
          rcases mem_calls_bind h2 with h3 | ⟨y, h3⟩
          · simp [M.pure] at h3
          · cases y with
            | inr e2 => simp [M.pure] at h3
            | inl pr =>
              obtain ⟨sid, look⟩ := pr
              exact schemaLookupStep2_calls_benign env sid look ref c h3
    · rw [if_neg h1] at hc
      rcases mem_calls_bind hc with h2 | ⟨y, h2⟩
      · simp [M.pure] at h2
      · cases y with
        | inr e2 => simp [M.pure] at h2
        | inl pr =>
          obtain ⟨sid, look⟩ := pr
          exact schemaLookupStep2_calls_benign env sid look ref c h2

theorem deserialiseRawDataM_calls_benign (env : Env) (raw : List Hex) (sid : String) :
    ∀ c ∈ (deserialiseRawDataM env raw sid).2,
      c.isAtIndexRead = false ∧ c.isWrite = false := by
  intro c hc
  unfold deserialiseRawDataM at hc
  rw [calls_runOp] at hc
  simp only [bind_eq_mbind, pure_eq_mpure] at hc
  rcases mem_calls_bind hc with h | ⟨_, h⟩
  · rcases resolveChain_calls env c h with h2 | h2 <;>
      simp [h2, Call.isAtIndexRead, Call.isWrite]
  · rcases mem_calls_bind h with h2 | ⟨lk, h2⟩
    · exact schemaLookupM_calls_benign env sid c h2
    · cases lk with
      | inr e => simp [M.pure] at h2
      | inl lkv =>
        simp only at h2
        rcases hdec : runSchemaEncoderDecode env lkv.finalSchema raw with e | d <;>
          rw [hdec] at h2 <;> simp [M.pure, mThrow] at h2

theorem res_runOp_ok (x : M (RT α)) : ∃ v, (runOp x).res = .ok v := by
  rcases x with ⟨r, tr⟩
  cases r with
  | ok a =>
    cases a with
    | inl v => exact ⟨.inl v, by simp [runOp, tryCatchM, M.bind, M.pure, M.res]⟩
    | inr e => exact ⟨.inr e, by simp [runOp, tryCatchM, M.bind, M.pure, M.res]⟩
  | error e => exact ⟨.inr e, by simp [runOp, tryCatchM, M.bind, M.pure, M.res]⟩

/-- Claim C8 (amended): a public read operation (here `getBetweenRange`)
resolves to a success value or a returned `Error` value for every input
*whose publisher address passes validation*; when the address is invalid
or zero, the `assertAddressIsValid` call sits before the `try/catch` and
its exception escapes the method instead of becoming a returned
`Error`. -/
theorem C8_valid_address_total (env : Env) (sid : Hex) (pub : Addr)
    (startIdx endIdx : Int) :
    (assertAddressIsValid pub = .ok () →
      ∃ v, (getBetweenRangeM env sid pub startIdx endIdx).res = .ok v) ∧
    (∀ err, assertAddressIsValid pub = .error err →
      (getBetweenRangeM env sid pub startIdx endIdx).res = .error err) := by
  constructor
  · intro haddr
    obtain ⟨v, hv⟩ := res_runOp_ok (do
      resolveChain env
      let raw ← mCall (Call.getPublisherDataForSchemaInRange sid pub startIdx endIdx)
        (env.dataInRangeR sid pub startIdx endIdx)
      deserialiseRawDataM env raw sid)
    refine ⟨v, ?_⟩
    simp only [getBetweenRangeM, bind_eq_mbind, assertAddrM, haddr, M.bind]
    exact hv
  · intro err haddr
    simp [getBetweenRangeM, assertAddrM, haddr, M.bind, M.res]

/-- Claim C8 (witness for the amended theorem): with a valid non-zero
address every outcome of the environment still yields a returned value
or `Error` (here under the all-failing oracle `envFail`). -/
theorem C8_valid_address_total_witness :
    ∃ v, (getBetweenRangeM envFail "0xabc" addrOk 0 1).res = .ok v :=
  (C8_valid_address_total envFail "0xabc" addrOk 0 1).1 (by rfl)

/-- Claim C8 (counterexample): the claim says every public operation
resolves to a success value or a typed `Error` for every input,
including an invalid publisher address; but `getBetweenRange` with the
invalid address `nope` throws the validation exception across the API
boundary (the promise rejects; no value or `Error` object is
returned). -/
theorem C8_invalid_address_throws_counterexample :
    (getBetweenRangeM envFail "0xabc" "nope" 0 1).res =
      .error "Invalid address provided: \"nope\"" := rfl

/-- Claim C7: when the registry's key-to-index lookup returns `n`, the
data-at-index read that `getByKey` issues targets exactly index
`n - 1` — it is issued, and every data-at-index read in the operation's
trace carries exactly that index (and the same schema and publisher). -/
theorem C7_key_index_adjustment (env : Env) (sid : Hex) (pub : Addr) (key : Hex)
    (n cid : Int)
    (haddr : assertAddressIsValid pub = .ok ())
    (hcid : env.chainId = .ok cid) (hinfo : env.contractInfo = .ok ())
    (hidx : env.publisherDataIndexR sid pub key = .ok n) :
    Call.getPublisherDataForSchemaAtIndex sid pub (n - 1) ∈
      (getByKeyM env sid pub key).calls ∧
    ∀ sid2 pub2 m,
      Call.getPublisherDataForSchemaAtIndex sid2 pub2 m ∈
        (getByKeyM env sid pub key).calls →
      sid2 = sid ∧ pub2 = pub ∧ m = n - 1 := by
  rcases hread : env.dataAtIndexR sid pub (n - 1) with e | raw
  · constructor
    · simp [getByKeyM, getAtIndexM, resolveChain, assertAddrM, runOp, tryCatchM,
        mCall, mThrow, M.bind, M.pure, M.calls, haddr, hcid, hinfo, hidx, hread]
    · intro sid2 pub2 m hm
      simp [getByKeyM, getAtIndexM, resolveChain, assertAddrM, runOp, tryCatchM,
        mCall, mThrow, M.bind, M.pure, M.calls, haddr, hcid, hinfo, hidx, hread] at hm
      simp [hm]
  · rcases hD : deserialiseRawDataM env [raw] sid with ⟨dr, dtr⟩
    have hben : ∀ c ∈ dtr, c.isAtIndexRead = false ∧ c.isWrite = false := by
      intro c hc
      exact deserialiseRawDataM_calls_benign env [raw] sid c (by rw [hD]; exact hc)
    constructor
    · rcases dr with dv | de
      · rcases dv with x | y <;>
          simp [getByKeyM, getAtIndexM, resolveChain, assertAddrM, runOp, tryCatchM,
            mCall, mThrow, M.bind, M.pure, M.calls, haddr, hcid, hinfo, hidx,
            hread, hD]
      · simp [getByKeyM, getAtIndexM, resolveChain, assertAddrM, runOp, tryCatchM,
          mCall, mThrow, M.bind, M.pure, M.calls, haddr, hcid, hinfo, hidx,
          hread, hD]
    · intro sid2 pub2 m hm
      have hfin : (sid2 = sid ∧ pub2 = pub ∧ m = n - 1) ∨
          Call.getPublisherDataForSchemaAtIndex sid2 pub2 m ∈ dtr := by
        rcases dr with dv | de
        · rcases dv with x | y <;>
            (simp [getByKeyM, getAtIndexM, resolveChain, assertAddrM, runOp, tryCatchM,
              mCall, mThrow, M.bind, M.pure, M.calls, haddr, hcid, hinfo, hidx,
              hread, hD] at hm
             tauto)
        · simp [getByKeyM, getAtIndexM, resolveChain, assertAddrM, runOp, tryCatchM,
            mCall, mThrow, M.bind, M.pure, M.calls, haddr, hcid, hinfo, hidx,
            hread, hD] at hm
          tauto
      rcases hfin with hm2 | hm2
      · exact hm2
      · have := (hben _ hm2).1
        simp [Call.isAtIndexRead] at this

/-- Claim C7 (witness): in `envKeyIndex` the key's stored index is `1`
and the issued data-at-index read targets index `0`. -/
theorem C7_key_index_adjustment_witness :
    Call.getPublisherDataForSchemaAtIndex "0xabc" addrOk 0 ∈
      (getByKeyM envKeyIndex "0xabc" addrOk "0xkey").calls := by
  have h := C7_key_index_adjustment envKeyIndex "0xabc" addrOk "0xkey" 1 1
    (by rfl) rfl rfl rfl
  simpa using h.1

theorem regStatusM_eval (env : Env) (r : DataSchemaReg) (sid : Hex) (cid : Int)
    (hcid : env.chainId = .ok cid) (hinfo : env.contractInfo = .ok ())
    (hcomp : env.computeSchemaIdR r.schema = .ok sid)
    (hreg : env.isSchemaRegisteredR sid = .ok true) :
    regStatusM env r =
      (.ok (.inl (r, sid, true)),
       [Call.getChainId, Call.contractInfo, Call.computeSchemaId r.schema,
        Call.getChainId, Call.contractInfo, Call.isSchemaRegistered sid]) := by
  simp [regStatusM, computeSchemaIdM, isDataSchemaRegisteredM, resolveChain,
    tryCatchM, mCall, M.bind, M.pure, hcid, hinfo, hcomp, hreg]

theorem mMapM_regStatus_all (env : Env) (cid : Int) (f : DataSchemaReg → Hex)
    (hcid : env.chainId = .ok cid) (hinfo : env.contractInfo = .ok ()) :
    ∀ regs : List DataSchemaReg,
      (∀ r ∈ regs, env.computeSchemaIdR r.schema = .ok (f r) ∧
        env.isSchemaRegisteredR (f r) = .ok true) →
      (mMapM (fun r => regStatusM env r) regs).1 =
        .ok (regs.map (fun r => Sum.inl (r, f r, true))) ∧
      (∀ c ∈ (mMapM (fun r => regStatusM env r) regs).2, c.isWrite = false) := by
  intro regs
  induction regs with
  | nil =>
    intro _
    exact ⟨rfl, by simp [mMapM, M.pure]⟩
  | cons r rs ih =>
    intro h
    have hr := h r (by simp)
    have hrs := ih (fun x hx => h x (by simp [hx]))
    have heval := regStatusM_eval env r (f r) cid hcid hinfo hr.1 hr.2
    rcases hmm : mMapM (fun x => regStatusM env x) rs with ⟨mr, mtr⟩
    rw [hmm] at hrs
    simp only [mres_pair, mcalls_pair] at hrs
    have hmm2 : mMapM (fun x => regStatusM env x) rs =
        (.ok (rs.map (fun x => Sum.inl (x, f x, true))), mtr) := by
      rw [hmm, hrs.1]
    constructor
    · simp [mMapM, M.bind, M.pure, heval, hmm2]
    · intro c hc
      simp [mMapM, M.bind, M.pure, heval, hmm2] at hc
      rcases hc with hc | hc | hc | hc | hc | hc | hc
      · simp [hc, Call.isWrite]
      · simp [hc, Call.isWrite]
      · simp [hc, Call.isWrite]
      · simp [hc, Call.isWrite]
      · simp [hc, Call.isWrite]
      · simp [hc, Call.isWrite]
      · exact hrs.2 c hc

theorem firstErrThrow_map_inl {β : Type} (g : β → α) :
    ∀ (l : List β),
      firstErrThrow (l.map (fun b => (Sum.inl (g b) : α ⊕ String))) =
        (.ok (l.map g), []) := by
  intro l
  induction l with
  | nil => rfl
  | cons b bs ih => simp [firstErrThrow, M.bind, M.pure, ih]

/-- Claim C9: `registerDataSchemas` with `ignoreRegisteredSchemas` set,
when every supplied schema is already registered: the filtered list is
empty, the operation returns the `Error` value `Nothing to register`
(the internal throw is caught by the method's `try/catch` and returned),
and no write call is ever issued to the contract. -/
theorem C9_nothing_to_register (env : Env) (regs : List DataSchemaReg)
    (cid : Int) (f : DataSchemaReg → Hex)
    (hcid : env.chainId = .ok cid) (hinfo : env.contractInfo = .ok ())
    (hstat : ∀ r ∈ regs, env.computeSchemaIdR r.schema = .ok (f r) ∧
      env.isSchemaRegisteredR (f r) = .ok true) :
    (registerDataSchemasM env regs true).res = .ok (.inr "Nothing to register") ∧
    ∀ c ∈ (registerDataSchemasM env regs true).calls, c.isWrite = false := by
  obtain ⟨h1, h2⟩ := mMapM_regStatus_all env cid f hcid hinfo regs hstat
  rcases hmm : mMapM (fun x => regStatusM env x) regs with ⟨mr, mtr⟩
  rw [hmm] at h1 h2
  simp only [mres_pair, mcalls_pair] at h1 h2
  have hmm2 : mMapM (fun x => regStatusM env x) regs =
      (.ok (regs.map (fun x => Sum.inl (x, f x, true))), mtr) := by
    rw [hmm, h1]
  have hfe := firstErrThrow_map_inl (fun r : DataSchemaReg => (r, f r, true)) regs
  have hfil : ((regs.map (fun r => (r, f r, true))).filter
      (fun x : DataSchemaReg × Hex × Bool => !x.2.2)) = [] := by
    rw [List.filter_eq_nil_iff]
    intro a ha
    rcases List.mem_map.mp ha with ⟨r, _, rfl⟩
    simp
  constructor
  · simp [registerDataSchemasM, runOp, tryCatchM, resolveChain, mCall, mThrow,
      M.bind, M.pure, M.res, hcid, hinfo, hmm2, hfe, hfil]
  · intro c hc
    simp [registerDataSchemasM, runOp, tryCatchM, resolveChain, mCall, mThrow,
      M.bind, M.pure, M.calls, hcid, hinfo, hmm2, hfe, hfil] at hc
    rcases hc with hc | hc | hc
    · simp [hc, Call.isWrite]
    · simp [hc, Call.isWrite]
    · exact h2 c hc

/-- Claim C9 (witness), at `envAllRegistered` with one already-registered
schema. -/
theorem C9_nothing_to_register_witness :
    (registerDataSchemasM envAllRegistered
        [{ schemaName := "s", schema := "uint256 a", parentSchemaId := none }]
        true).res = .ok (.inr "Nothing to register") := by
  have h := C9_nothing_to_register envAllRegistered
    [{ schemaName := "s", schema := "uint256 a", parentSchemaId := none }] 1
    (fun _ => "0xc0ffee") rfl rfl
    (by
      intro r hr
      exact ⟨rfl, rfl⟩)
  exact h.1

/- ### Structural size facts -/

theorem vsize_pos : ∀ v : Value, 1 ≤ vsize v := by
  intro v
  cases v <;> simp [vsize]

theorem psize_pos : ∀ p : AbiParam, 1 ≤ psize p := by
  intro p
  cases p <;> simp [psize]

theorem vsizeList_mem : ∀ (vs : List Value), ∀ v ∈ vs, vsize v ≤ vsizeList vs := by
  intro vs
  induction vs with
  | nil => intro v hv; simp at hv
  | cons a as ih =>
    intro v hv
    have hrec : vsizeList (a :: as) = vsize a + vsizeList as := rfl
    rcases List.mem_cons.mp hv with rfl | hv
    · omega
    · have := ih v hv
      omega

theorem psizeList_mem : ∀ (cs : List AbiParam), ∀ c ∈ cs, psize c ≤ psizeList cs := by
  intro cs
  induction cs with
  | nil => intro c hc; simp at hc
  | cons a as ih =>
    intro c hc
    have hrec : psizeList (a :: as) = psize a + psizeList as := rfl
    rcases List.mem_cons.mp hc with rfl | hc
    · omega
    · have := ih c hc
      omega

theorem getIdx_size : ∀ (vs : List Value) (i : Nat), i < vs.length →
    vsize (getIdx vs i) ≤ vsizeList vs := by
  intro vs
  induction vs with
  | nil => intro i hi; simp at hi
  | cons a as ih =>
    intro i hi
    have hrec : vsizeList (a :: as) = vsize a + vsizeList as := rfl
    cases i with
    | zero =>
      rw [show getIdx (a :: as) 0 = a from rfl]
      omega
    | succ j =>
      rw [show getIdx (a :: as) (j + 1) = getIdx as j from rfl]
      have := ih j (by simpa using hi)
      omega

theorem idxApply_eq_zipWith (g : AbiParam → Value → α) :
    ∀ (cs : List AbiParam) (vs : List Value), cs.length = vs.length →
      idxApply g cs vs = List.zipWith g cs vs := by
  intro cs
  induction cs with
  | nil => intro vs _; rfl
  | cons c cs2 ih =>
    intro vs h
    cases vs with
    | nil => simp at h
    | cons v vs2 => simp [idxApply, List.zipWith, ih vs2 (by simpa using h)]

theorem all_cong {α} (p q : α → Bool) :
    ∀ l : List α, (∀ a ∈ l, p a = q a) → l.all p = l.all q := by
  intro l
  induction l with
  | nil => intro _; rfl
  | cons a as ih =>
    intro h
    simp [List.all_cons, h a (by simp), ih (fun x hx => h x (by simp [hx]))]

theorem all2F_cong (f g : α → β → Bool) :
    ∀ (as : List α) (bs : List β), (∀ a ∈ as, ∀ b ∈ bs, f a b = g a b) →
      all2F f as bs = all2F g as bs := by
  intro as
  induction as with
  | nil => intro bs _; cases bs <;> rfl
  | cons a as2 ih =>
    intro bs h
    cases bs with
    | nil => rfl
    | cons b bs2 =>
      rw [show all2F f (a :: as2) (b :: bs2) = (f a b && all2F f as2 bs2) from rfl,
          show all2F g (a :: as2) (b :: bs2) = (g a b && all2F g as2 bs2) from rfl,
          h a (by simp) b (by simp),
          ih bs2 (fun x hx y hy => h x (by simp [hx]) y (by simp [hy]))]

theorem all2F_map_left (f : γ → β → Bool) (m : α → γ) :
    ∀ (as : List α) (bs : List β),
      all2F f (as.map m) bs = all2F (fun a b => f (m a) b) as bs := by
  intro as
  induction as with
  | nil => intro bs; cases bs <;> rfl
  | cons a as2 ih =>
    intro bs
    cases bs with
    | nil => rfl
    | cons b bs2 => simp [all2F, ih bs2]

/- ### `stripAbiNames` facts -/

theorem stripF_fuelIndep : ∀ (f g : Nat) (p : AbiParam),
    psize p ≤ f → psize p ≤ g → stripF f p = stripF g p := by
  intro f
  induction f with
  | zero =>
    intro g p hf _
    have := psize_pos p
    omega
  | succ f2 ih =>
    intro g p hf hg
    cases g with
    | zero =>
      have := psize_pos p
      omega
    | succ g2 =>
      cases p with
      | prim n t => rfl
      | comp n t cs =>
        have hsz : psize (AbiParam.comp n t cs) = psizeList cs + 1 := rfl
        simp only [stripF, AbiParam.comp.injEq, true_and]
        apply List.map_congr_left
        intro c hc
        have hmem := psizeList_mem cs c hc
        exact ih g2 c (by omega) (by omega)

theorem stripParam_comp (n : Option String) (t : String) (cs : List AbiParam) :
    stripParam (.comp n t cs) = .comp none t (cs.map stripParam) := by
  show stripF (psizeList cs + 1) (.comp n t cs) = _
  simp only [stripF, AbiParam.comp.injEq, true_and]
  apply List.map_congr_left
  intro c hc
  exact stripF_fuelIndep _ _ c (psizeList_mem cs c hc) (le_refl (psize c))

theorem stripParam_ptype (p : AbiParam) : (stripParam p).ptype = p.ptype := by
  cases p with
  | prim n t => rfl
  | comp n t cs => rw [stripParam_comp]; rfl

theorem stripParam_elem_comm (p : AbiParam) :
    stripParam (elemParam p) = elemParam (stripParam p) := by
  cases p with
  | prim n t => rfl
  | comp n t cs =>
    rw [stripParam_comp]
    show stripParam (.comp n (strDropRight t 2) cs) = _
    rw [stripParam_comp]
    rfl

theorem abiMatchesF_strip : ∀ (f : Nat) (p : AbiParam) (v : Value),
    abiMatchesF f (stripParam p) v = abiMatchesF f p v := by
  intro f
  induction f with
  | zero => intro p v; rfl
  | succ f2 ih =>
    intro p v
    simp only [abiMatchesF, stripParam_ptype]
    by_cases h1 : strEndsWith p.ptype ("[]") = true
    · rw [if_pos h1, if_pos h1]
      cases v with
      | varr vs =>
        rw [← stripParam_elem_comm]
        exact all_cong _ _ vs (fun x _ => ih (elemParam p) x)
      | vstr s => rfl
      | vbool b => rfl
      | vint n => rfl
      | vundef => rfl
      | vitem a b c => rfl
    · rw [if_neg h1, if_neg h1]
      by_cases h2 : strStartsWith p.ptype ("tuple") = true
      · rw [if_pos h2, if_pos h2]
        cases p with
        | prim n t => rfl
        | comp n t cs =>
          rw [stripParam_comp]
          cases v with
          | varr vs =>
            show all2F (abiMatchesF f2) (List.map stripParam cs) vs
              = all2F (abiMatchesF f2) cs vs
            rw [all2F_map_left]
            exact all2F_cong _ _ cs vs (fun c _ x _ => ih c x)
          | vstr s => rfl
          | vbool b => rfl
          | vint n => rfl
          | vundef => rfl
          | vitem a b c => rfl
      · rw [if_neg h2, if_neg h2]

/- ### Further pointwise list lemmas -/

theorem all2F_length (q : α → β → Bool) :
    ∀ (as : List α) (bs : List β), all2F q as bs = true → as.length = bs.length := by
  intro as
  induction as with
  | nil =>
    intro bs h
    cases bs with
    | nil => rfl
    | cons b bs2 => simp [all2F] at h
  | cons a as2 ih =>
    intro bs h
    cases bs with
    | nil => simp [all2F] at h
    | cons b bs2 =>
      have h2 : all2F q as2 bs2 = true := by
        have := h
        rw [show all2F q (a :: as2) (b :: bs2) = (q a b && all2F q as2 bs2) from rfl,
          Bool.and_eq_true] at this
        exact this.2
      simp [ih bs2 h2]

theorem all2F_head_tail (q : α → β → Bool) (a : α) (b : β) (as : List α) (bs : List β)
    (h : all2F q (a :: as) (b :: bs) = true) :
    q a b = true ∧ all2F q as bs = true := by
  rw [show all2F q (a :: as) (b :: bs) = (q a b && all2F q as bs) from rfl,
    Bool.and_eq_true] at h
  exact h

theorem all2F_zipWith_congr (q : α → β → Bool) (g g' : α → β → γ) :
    ∀ (as : List α) (bs : List β),
      (∀ a ∈ as, ∀ b ∈ bs, q a b = true → g a b = g' a b) →
      all2F q as bs = true → List.zipWith g as bs = List.zipWith g' as bs := by
  intro as
  induction as with
  | nil => intro bs _ _; rfl
  | cons a as2 ih =>
    intro bs H h
    cases bs with
    | nil => rfl
    | cons b bs2 =>
      obtain ⟨hh, ht⟩ := all2F_head_tail q a b as2 bs2 h
      simp only [List.zipWith, H a (by simp) b (by simp) hh,
        ih bs2 (fun x hx y hy => H x (by simp [hx]) y (by simp [hy])) ht]

theorem all2F_zipWith_right (q : α → β → Bool) (r : α → γ → Bool) (g : α → β → γ) :
    ∀ (as : List α) (bs : List β),
      (∀ a ∈ as, ∀ b ∈ bs, q a b = true → r a (g a b) = true) →
      all2F q as bs = true → all2F r as (List.zipWith g as bs) = true := by
  intro as
  induction as with
  | nil => intro bs _ _; rfl
  | cons a as2 ih =>
    intro bs H h
    cases bs with
    | nil => simp [all2F] at h
    | cons b bs2 =>
      obtain ⟨hh, ht⟩ := all2F_head_tail q a b as2 bs2 h
      rw [show List.zipWith g (a :: as2) (b :: bs2) = g a b :: List.zipWith g as2 bs2 from rfl,
        show all2F r (a :: as2) (g a b :: List.zipWith g as2 bs2)
          = (r a (g a b) && all2F r as2 (List.zipWith g as2 bs2)) from rfl,
        H a (by simp) b (by simp) hh,
        ih bs2 (fun x hx y hy => H x (by simp [hx]) y (by simp [hy])) ht]
      rfl

theorem all2F_zipWith_id (q : α → β → Bool) (g : α → β → β) :
    ∀ (as : List α) (bs : List β),
      (∀ a ∈ as, ∀ b ∈ bs, q a b = true → g a b = b) →
      all2F q as bs = true → List.zipWith g as bs = bs := by
  intro as
  induction as with
  | nil =>
    intro bs _ h
    cases bs with
    | nil => rfl
    | cons b bs2 => simp [all2F] at h
  | cons a as2 ih =>
    intro bs H h
    cases bs with
    | nil => simp [all2F] at h
    | cons b bs2 =>
      obtain ⟨hh, ht⟩ := all2F_head_tail q a b as2 bs2 h
      simp only [List.zipWith, H a (by simp) b (by simp) hh,
        ih bs2 (fun x hx y hy => H x (by simp [hx]) y (by simp [hy])) ht]

theorem all2F_mem_right (q : α → β → Bool) :
    ∀ (as : List α) (bs : List β), all2F q as bs = true →
      ∀ b ∈ bs, ∃ a ∈ as, q a b = true := by
  intro as
  induction as with
  | nil =>
    intro bs h b hb
    cases bs with
    | nil => simp at hb
    | cons x xs => simp [all2F] at h
  | cons a as2 ih =>
    intro bs h b hb
    cases bs with
    | nil => simp at hb
    | cons x xs =>
      obtain ⟨hh, ht⟩ := all2F_head_tail q a x as2 xs h
      rcases List.mem_cons.mp hb with rfl | hb
      · exact ⟨a, by simp, hh⟩
      · obtain ⟨a2, ha2, hq⟩ := ih xs ht b hb
        exact ⟨a2, by simp [ha2], hq⟩

theorem map_self (f : α → α) :
    ∀ l : List α, (∀ a ∈ l, f a = a) → l.map f = l := by
  intro l
  induction l with
  | nil => intro _; rfl
  | cons a as ih =>
    intro H
    simp only [List.map, H a (by simp), ih (fun x hx => H x (by simp [hx]))]

theorem map_idxApply (h : γ → δ) (g : AbiParam → Value → γ) :
    ∀ (cs : List AbiParam) (ws : List Value),
      (idxApply g cs ws).map h = idxApply (fun c w => h (g c w)) cs ws := by
  intro cs
  induction cs with
  | nil => intro ws; rfl
  | cons c cs2 ih =>
    intro ws
    cases ws with
    | nil => simp [idxApply, ih]
    | cons w ws2 => simp [idxApply, ih]

theorem idxApply_strip (g g' : AbiParam → Value → α) :
    ∀ (cs cs' : List AbiParam), cs.map stripParam = cs'.map stripParam →
      (∀ c c', stripParam c = stripParam c' → ∀ w, g c w = g' c' w) →
      ∀ ws, idxApply g cs ws = idxApply g' cs' ws := by
  intro cs
  induction cs with
  | nil =>
    intro cs' hmap _ ws
    cases cs' with
    | nil => rfl
    | cons x xs => simp at hmap
  | cons c cs2 ih =>
    intro cs' hmap H ws
    cases cs' with
    | nil => simp at hmap
    | cons c' cs2' =>
      simp only [List.map, List.cons.injEq] at hmap
      cases ws with
      | nil =>
        simp only [idxApply, H c c' hmap.1 Value.vundef,
          ih cs2' hmap.2 H []]
      | cons w ws2 =>
        simp only [idxApply, H c c' hmap.1 w, ih cs2' hmap.2 H ws2]

theorem vsizeList_map_congr (g : Value → Value) :
    ∀ vs : List Value, (∀ x ∈ vs, vsize (g x) = vsize x) →
      vsizeList (vs.map g) = vsizeList vs := by
  intro vs
  induction vs with
  | nil => intro _; rfl
  | cons v vs2 ih =>
    intro H
    rw [show (v :: vs2).map g = g v :: vs2.map g from rfl,
      show vsizeList (g v :: vs2.map g) = vsize (g v) + vsizeList (vs2.map g) from rfl,
      show vsizeList (v :: vs2) = vsize v + vsizeList vs2 from rfl,
      H v (by simp), ih (fun x hx => H x (by simp [hx]))]

theorem vsizeList_zipWith_congr (q : AbiParam → Value → Bool) (g : AbiParam → Value → Value) :
    ∀ (cs : List AbiParam) (vs : List Value),
      (∀ c ∈ cs, ∀ v ∈ vs, q c v = true → vsize (g c v) = vsize v) →
      all2F q cs vs = true → vsizeList (List.zipWith g cs vs) = vsizeList vs := by
  intro cs
  induction cs with
  | nil =>
    intro vs _ h
    cases vs with
    | nil => rfl
    | cons v vs2 => simp [all2F] at h
  | cons c cs2 ih =>
    intro vs H h
    cases vs with
    | nil => simp [all2F] at h
    | cons v vs2 =>
      obtain ⟨hh, ht⟩ := all2F_head_tail q c v cs2 vs2 h
      rw [show List.zipWith g (c :: cs2) (v :: vs2) = g c v :: List.zipWith g cs2 vs2 from rfl,
        show vsizeList (g c v :: List.zipWith g cs2 vs2)
          = vsize (g c v) + vsizeList (List.zipWith g cs2 vs2) from rfl,
        show vsizeList (v :: vs2) = vsize v + vsizeList vs2 from rfl,
        H c (by simp) v (by simp) hh,
        ih vs2 (fun x hx y hy => H x (by simp [hx]) y (by simp [hy])) ht]

/- ### Well-formedness unfolding -/

theorem wfF_fuelIndep : ∀ (f g : Nat) (p : AbiParam),
    psize p ≤ f → psize p ≤ g → wfF f p = wfF g p := by
  intro f
  induction f with
  | zero =>
    intro g p hf _
    have := psize_pos p
    omega
  | succ f2 ih =>
    intro g p hf hg
    cases g with
    | zero =>
      have := psize_pos p
      omega
    | succ g2 =>
      cases p with
      | prim n t => rfl
      | comp n t cs =>
        have hsz : psize (AbiParam.comp n t cs) = psizeList cs + 1 := rfl
        simp only [wfF]
        congr 1
        apply all_cong
        intro c hc
        have hmem := psizeList_mem cs c hc
        exact ih g2 c (by omega) (by omega)

theorem wfParam_comp (n : Option String) (t : String) (cs : List AbiParam)
    (h : wfParam (.comp n t cs) = true) :
    (t = "tuple" ∨ t = "tuple[]") ∧ ∀ c ∈ cs, wfParam c = true := by
  rw [show wfParam (AbiParam.comp n t cs)
      = ((t == "tuple" || t == "tuple[]") && cs.all (wfF (psizeList cs))) from rfl,
    Bool.and_eq_true] at h
  obtain ⟨h1, h2⟩ := h
  rw [Bool.or_eq_true] at h1
  refine ⟨?_, ?_⟩
  · rcases h1 with h | h
    · exact Or.inl (eq_of_beq h)
    · exact Or.inr (eq_of_beq h)
  · intro c hc
    have := List.all_eq_true.mp h2 c hc
    rw [wfParam, ← wfF_fuelIndep (psizeList cs) (psize c) c (psizeList_mem cs c hc) (le_refl _)]
    exact this

/- ### The prepare transform agrees with the spec normalization -/

theorem prep_eq_norm : ∀ (f : Nat) (p : AbiParam) (v : Value),
    inputMF f p v = true → prepF f p v = normF f p v := by
  intro f
  induction f with
  | zero => intro p v h; simp [inputMF] at h
  | succ f2 ih =>
    intro p v h
    simp only [inputMF] at h
    by_cases h1 : strEndsWith p.ptype ("[]") = true
    · rw [if_pos h1] at h
      cases v with
      | varr vs =>
        have h' : vs.all (inputMF f2 (elemParam p)) = true := h
        simp only [prepF, normF]
        rw [if_pos (show (strEndsWith p.ptype ("[]") && (Value.varr vs).isArr) = true by
            simp [h1, Value.isArr]),
          if_pos (show (strEndsWith p.ptype ("[]") && (Value.varr vs).isArr) = true by
            simp [h1, Value.isArr])]
        show Value.varr (vs.map (prepF f2 (elemParam p)))
          = Value.varr (vs.map (normF f2 (elemParam p)))
        congr 1
        apply List.map_congr_left
        intro x hx
        exact ih (elemParam p) x (List.all_eq_true.mp h' x hx)
      | vstr s => simp at h
      | vbool b => simp at h
      | vint n => simp at h
      | vundef => simp at h
      | vitem a b c => simp at h
    · rw [if_neg h1] at h
      by_cases h2 : strStartsWith p.ptype ("tuple") = true
      · rw [if_pos h2] at h
        cases p with
        | prim n t => simp at h
        | comp n t cs =>
          cases v with
          | varr vs =>
            have h' : all2F (inputMF f2) cs vs = true := h
            simp only [prepF, normF]
            rw [if_neg (show ¬((strEndsWith (AbiParam.comp n t cs).ptype ("[]")
                  && (Value.varr vs).isArr) = true) by simp [h1]),
              if_neg (show ¬((strEndsWith (AbiParam.comp n t cs).ptype ("[]")
                  && (Value.varr vs).isArr) = true) by simp [h1]),
              if_pos (show (strStartsWith (AbiParam.comp n t cs).ptype ("tuple")
                  && (AbiParam.comp n t cs).isComp) = true by simp [h2, AbiParam.isComp]),
              if_pos (show (strStartsWith (AbiParam.comp n t cs).ptype ("tuple")
                  && (AbiParam.comp n t cs).isComp) = true by simp [h2, AbiParam.isComp])]
            show Value.varr (idxApply (prepF f2) cs vs)
              = Value.varr (List.zipWith (normF f2) cs vs)
            rw [idxApply_eq_zipWith _ cs vs (all2F_length _ cs vs h')]
            exact congrArg Value.varr
              (all2F_zipWith_congr _ _ _ cs vs (fun c _ x _ hq => ih c x hq) h')
          | vstr s => simp at h
          | vbool b => simp at h
          | vint n => simp at h
          | vundef => simp at h
          | vitem a b c => simp at h
      · simp only [prepF, normF]
        rw [if_neg (show ¬((strEndsWith p.ptype ("[]") && v.isArr) = true) by simp [h1]),
          if_neg (show ¬((strEndsWith p.ptype ("[]") && v.isArr) = true) by simp [h1]),
          if_neg (show ¬((strStartsWith p.ptype ("tuple") && p.isComp) = true) by simp [h2]),
          if_neg (show ¬((strStartsWith p.ptype ("tuple") && p.isComp) = true) by simp [h2])]
        cases v <;> rfl

/- ### Hex-packing facts -/

theorem hexDigit_hex : ∀ n, n < 16 → isHexDigitChar (hexDigit n) = true := by decide

theorem byteHex_all (n : Nat) : (byteHex n).all isHexDigitChar = true := by
  simp only [byteHex, List.all_cons, List.all_nil, Bool.and_true, Bool.and_eq_true]
  exact ⟨hexDigit_hex _ (by omega), hexDigit_hex _ (by omega)⟩

theorem concatMap_all (p : β → Bool) (f : α → List β) :
    ∀ l : List α, (∀ a ∈ l, (f a).all p = true) → (concatMap f l).all p = true := by
  intro l
  induction l with
  | nil => intro _; rfl
  | cons a as ih =>
    intro H
    show ((f a ++ concatMap f as).all p) = true
    rw [List.all_append, H a (by simp), ih (fun x hx => H x (by simp [hx]))]
    rfl

theorem concatMap_length_byteHex : ∀ l : List Char,
    (concatMap (fun c => byteHex c.toNat) l).length = 2 * l.length := by
  intro l
  induction l with
  | nil => rfl
  | cons c cs ih =>
    show (byteHex c.toNat ++ concatMap (fun c => byteHex c.toNat) cs).length = 2 * (c :: cs).length
    rw [List.length_append, ih]
    simp [byteHex]
    omega

theorem replicate_all_hex (k : Nat) : (List.replicate k ('0')).all isHexDigitChar = true := by
  induction k with
  | zero => rfl
  | succ k ih =>
    rw [List.replicate_succ, List.all_cons, ih]
    rfl

theorem stringToHex32_data (s : String) :
    (stringToHex32 s).data = '0' :: 'x' :: (concatMap (fun c => byteHex c.toNat) (s.data.take 32)
      ++ List.replicate (2 * (32 - (s.data.take 32).length)) ('0')) := rfl

theorem stringToHex32_length (s : String) : (stringToHex32 s).data.length = 66 := by
  rw [stringToHex32_data]
  simp only [List.length_cons, List.length_append, concatMap_length_byteHex,
    List.length_replicate, List.length_take]
  omega

theorem stringToHex32_isHex (s : String) : isHexStr (stringToHex32 s) = true := by
  have h1 : strStartsWith (stringToHex32 s) ("0x") = true := by
    have hd : ("0x" : String).data = ['0', 'x'] := rfl
    simp [strStartsWith, hd, stringToHex32_data, listStartsWith]
  have h2 : ((stringToHex32 s).data.drop 2).all isHexDigitChar = true := by
    rw [stringToHex32_data]
    show ((concatMap (fun c => byteHex c.toNat) (s.data.take 32)
      ++ List.replicate (2 * (32 - (s.data.take 32).length)) ('0')).all isHexDigitChar) = true
    rw [List.all_append, concatMap_all _ _ _ (fun a _ => byteHex_all a.toNat),
      replicate_all_hex]
    rfl
  simp [isHexStr, h1, h2]

/- ### The prepare transform preserves structural size -/

theorem prep_vsize : ∀ (f : Nat) (p : AbiParam) (v : Value),
    inputMF f p v = true → vsize (prepF f p v) = vsize v := by
  intro f
  induction f with
  | zero => intro p v h; simp [inputMF] at h
  | succ f2 ih =>
    intro p v h
    simp only [inputMF] at h
    by_cases h1 : strEndsWith p.ptype ("[]") = true
    · rw [if_pos h1] at h
      cases v with
      | varr vs =>
        have h' : vs.all (inputMF f2 (elemParam p)) = true := h
        simp only [prepF]
        rw [if_pos (show (strEndsWith p.ptype ("[]") && (Value.varr vs).isArr) = true by
            simp [h1, Value.isArr])]
        show vsize (Value.varr (vs.map (prepF f2 (elemParam p)))) = vsize (Value.varr vs)
        rw [show vsize (Value.varr (vs.map (prepF f2 (elemParam p))))
            = vsizeList (vs.map (prepF f2 (elemParam p))) + 1 from rfl,
          show vsize (Value.varr vs) = vsizeList vs + 1 from rfl,
          vsizeList_map_congr _ vs
            (fun x hx => ih (elemParam p) x (List.all_eq_true.mp h' x hx))]
      | vstr s => simp at h
      | vbool b => simp at h
      | vint n => simp at h
      | vundef => simp at h
      | vitem a b c => simp at h
    · rw [if_neg h1] at h
      by_cases h2 : strStartsWith p.ptype ("tuple") = true
      · rw [if_pos h2] at h
        cases p with
        | prim n t => simp at h
        | comp n t cs =>
          cases v with
          | varr vs =>
            have h' : all2F (inputMF f2) cs vs = true := h
            simp only [prepF]
            rw [if_neg (show ¬((strEndsWith (AbiParam.comp n t cs).ptype ("[]")
                  && (Value.varr vs).isArr) = true) by simp [h1]),
              if_pos (show (strStartsWith (AbiParam.comp n t cs).ptype ("tuple")
                  && (AbiParam.comp n t cs).isComp) = true by simp [h2, AbiParam.isComp])]
            show vsize (Value.varr (idxApply (prepF f2) cs vs)) = vsize (Value.varr vs)
            rw [idxApply_eq_zipWith _ cs vs (all2F_length _ cs vs h'),
              show vsize (Value.varr (List.zipWith (prepF f2) cs vs))
                = vsizeList (List.zipWith (prepF f2) cs vs) + 1 from rfl,
              show vsize (Value.varr vs) = vsizeList vs + 1 from rfl,
              vsizeList_zipWith_congr _ _ cs vs (fun c _ x _ hq => ih c x hq) h']
          | vstr s => simp at h
          | vbool b => simp at h
          | vint n => simp at h
          | vundef => simp at h
          | vitem a b c => simp at h
      · simp only [prepF]
        rw [if_neg (show ¬((strEndsWith p.ptype ("[]") && v.isArr) = true) by simp [h1]),
          if_neg (show ¬((strStartsWith p.ptype ("tuple") && p.isComp) = true) by simp [h2])]
        by_cases h3 : (p.ptype == "bytes32") = true
        · rw [if_pos h3]
          cases v with
          | vstr s =>
            show vsize (if !isHexStr s then Value.vstr (stringToHex32 s) else Value.vstr s)
              = vsize (Value.vstr s)
            split <;> rfl
          | vbool b => rfl
          | vint n => rfl
          | vundef => rfl
          | varr vs => rfl
          | vitem a b c => rfl
        · rw [if_neg h3]
          by_cases h5 : (p.ptype == "address") = true
          · rw [if_pos h5]
            cases v <;> rfl
          · rw [if_neg h5]

/- ### The prepared values pass the ABI shape check -/

theorem primAbiMatches_bytes32 (v : Value) :
    primAbiMatches ("bytes32") v
      = (match v with
        | .vstr s => isHexStr s && s.data.length == 66
        | _ => false) := rfl

theorem prep_abiMatches : ∀ (f : Nat) (p : AbiParam) (v : Value),
    inputMF f p v = true → abiMatchesF f p (prepF f p v) = true := by
  intro f
  induction f with
  | zero => intro p v h; simp [inputMF] at h
  | succ f2 ih =>
    intro p v h
    simp only [inputMF] at h
    by_cases h1 : strEndsWith p.ptype ("[]") = true
    · rw [if_pos h1] at h
      cases v with
      | varr vs =>
        have h' : vs.all (inputMF f2 (elemParam p)) = true := h
        simp only [prepF, abiMatchesF]
        rw [if_pos (show (strEndsWith p.ptype ("[]") && (Value.varr vs).isArr) = true by
            simp [h1, Value.isArr]),
          if_pos h1]
        show (vs.map (prepF f2 (elemParam p))).all (abiMatchesF f2 (elemParam p)) = true
        rw [List.all_map]
        exact List.all_eq_true.mpr
          (fun x hx => ih (elemParam p) x (List.all_eq_true.mp h' x hx))
      | vstr s => simp at h
      | vbool b => simp at h
      | vint n => simp at h
      | vundef => simp at h
      | vitem a b c => simp at h
    · rw [if_neg h1] at h
      by_cases h2 : strStartsWith p.ptype ("tuple") = true
      · rw [if_pos h2] at h
        cases p with
        | prim n t => simp at h
        | comp n t cs =>
          cases v with
          | varr vs =>
            have h' : all2F (inputMF f2) cs vs = true := h
            simp only [prepF, abiMatchesF]
            rw [if_neg (show ¬((strEndsWith (AbiParam.comp n t cs).ptype ("[]")
                  && (Value.varr vs).isArr) = true) by simp [h1]),
              if_pos (show (strStartsWith (AbiParam.comp n t cs).ptype ("tuple")
                  && (AbiParam.comp n t cs).isComp) = true by simp [h2, AbiParam.isComp]),
              if_neg h1, if_pos h2]
            show all2F (abiMatchesF f2) cs (idxApply (prepF f2) cs vs) = true
            rw [idxApply_eq_zipWith _ cs vs (all2F_length _ cs vs h')]
            exact all2F_zipWith_right _ _ _ cs vs (fun c _ x _ hq => ih c x hq) h'
          | vstr s => simp at h
          | vbool b => simp at h
          | vint n => simp at h
          | vundef => simp at h
          | vitem a b c => simp at h
      · rw [if_neg h2] at h
        simp only [primInputMatches] at h
        simp only [prepF, abiMatchesF]
        rw [if_neg (show ¬((strEndsWith p.ptype ("[]") && v.isArr) = true) by simp [h1]),
          if_neg (show ¬((strStartsWith p.ptype ("tuple") && p.isComp) = true) by simp [h2]),
          if_neg h1, if_neg h2]
        by_cases h3 : (p.ptype == "bytes32") = true
        · rw [if_pos h3] at h ⊢
          have ht := eq_of_beq h3
          cases v with
          | vstr s =>
            have h' : (if isHexStr s = true then (s.data.length == 66)
                else (decide (s.data.length ≤ 32)
                  && s.data.all fun c => decide (c.toNat < 128))) = true := h
            show primAbiMatches p.ptype
              (if !isHexStr s then Value.vstr (stringToHex32 s) else Value.vstr s) = true
            rw [ht]
            by_cases h4 : isHexStr s = true
            · rw [if_pos h4] at h'
              rw [h4]
              show primAbiMatches ("bytes32") (Value.vstr s) = true
              rw [primAbiMatches_bytes32]
              show (isHexStr s && s.data.length == 66) = true
              rw [h4, h']
              rfl
            · rw [if_neg h4] at h'
              rw [show isHexStr s = false from by simpa using h4]
              show primAbiMatches ("bytes32") (Value.vstr (stringToHex32 s)) = true
              rw [primAbiMatches_bytes32]
              show (isHexStr (stringToHex32 s) && (stringToHex32 s).data.length == 66) = true
              rw [stringToHex32_isHex, stringToHex32_length]
              rfl
          | vbool b => simp at h
          | vint n => simp at h
          | vundef => simp at h
          | varr vs => simp at h
          | vitem a b c => simp at h
        · rw [if_neg h3] at h ⊢
          by_cases h5 : (p.ptype == "address") = true
          · rw [if_pos h5]
            cases v <;> exact h
          · rw [if_neg h5]
            exact h

theorem not_eq_true_of_false {b : Bool} (h : b = false) : ¬(b = true) := by simp [h]

/- ### ABI-matched values carry no item wrappers -/

theorem primAbiMatches_cases (t : String) (v : Value) (h : primAbiMatches t v = true) :
    (∃ s, v = .vstr s) ∨ (∃ b, v = .vbool b) ∨ (∃ n, v = .vint n) := by
  rcases v with s | b | n | _ | vs | ⟨nm, tp, w⟩
  · exact Or.inl ⟨s, rfl⟩
  · exact Or.inr (Or.inl ⟨b, rfl⟩)
  · exact Or.inr (Or.inr ⟨n, rfl⟩)
  · simp [primAbiMatches, ite_self] at h
  · simp [primAbiMatches, ite_self] at h
  · simp [primAbiMatches, ite_self] at h

theorem underF_id_of_match : ∀ (m : Nat) (p : AbiParam) (v : Value),
    abiMatchesF m p v = true → ∀ h, underF h v = v := by
  intro m
  induction m with
  | zero => intro p v hm; simp [abiMatchesF] at hm
  | succ m2 ih =>
    intro p v hm
    simp only [abiMatchesF] at hm
    by_cases h1 : strEndsWith p.ptype ("[]") = true
    · rw [if_pos h1] at hm
      cases v with
      | varr vs =>
        have hm' : vs.all (abiMatchesF m2 (elemParam p)) = true := hm
        intro h
        cases h with
        | zero => rfl
        | succ h2 =>
          show Value.varr (vs.map (underF h2)) = Value.varr vs
          congr 1
          exact map_self _ vs
            (fun x hx => ih (elemParam p) x (List.all_eq_true.mp hm' x hx) h2)
      | vstr s => simp at hm
      | vbool b => simp at hm
      | vint n => simp at hm
      | vundef => simp at hm
      | vitem a b c => simp at hm
    · rw [if_neg h1] at hm
      by_cases h2 : strStartsWith p.ptype ("tuple") = true
      · rw [if_pos h2] at hm
        cases p with
        | prim n t => simp at hm
        | comp n t cs =>
          cases v with
          | varr vs =>
            have hm' : all2F (abiMatchesF m2) cs vs = true := hm
            intro h
            cases h with
            | zero => rfl
            | succ h3 =>
              show Value.varr (vs.map (underF h3)) = Value.varr vs
              congr 1
              apply map_self
              intro x hx
              obtain ⟨c, _, hq⟩ := all2F_mem_right _ cs vs hm' x hx
              exact ih c x hq h3
          | vstr s => simp at hm
          | vbool b => simp at hm
          | vint n => simp at hm
          | vundef => simp at hm
          | vitem a b c => simp at hm
      · rw [if_neg h2] at hm
        rcases primAbiMatches_cases p.ptype v hm with ⟨s, rfl⟩ | ⟨b, rfl⟩ | ⟨n2, rfl⟩ <;>
          intro h <;> cases h <;> rfl

theorem underF_fuelIndep : ∀ (f g : Nat) (v : Value),
    vsize v ≤ f → vsize v ≤ g → underF f v = underF g v := by
  intro f
  induction f with
  | zero =>
    intro g v hf _
    have := vsize_pos v
    omega
  | succ f2 ih =>
    intro g v hf hg
    cases g with
    | zero =>
      have := vsize_pos v
      omega
    | succ g2 =>
      cases v with
      | vitem n t w =>
        have hsz : vsize (Value.vitem n t w) = vsize w + 1 := rfl
        show underF f2 w = underF g2 w
        exact ih g2 w (by omega) (by omega)
      | varr vs =>
        have hsz : vsize (Value.varr vs) = vsizeList vs + 1 := rfl
        show Value.varr (vs.map (underF f2)) = Value.varr (vs.map (underF g2))
        congr 1
        apply List.map_congr_left
        intro x hx
        have := vsizeList_mem vs x hx
        exact ih g2 x (by omega) (by omega)
      | vstr s => rfl
      | vbool b => rfl
      | vint n => rfl
      | vundef => rfl

theorem underlying_vitem (n t : String) (w : Value) :
    underlying (.vitem n t w) = underlying w := rfl

theorem underlying_varr (vs : List Value) :
    underlying (.varr vs) = .varr (vs.map underlying) := by
  show underF (vsize (Value.varr vs)) (Value.varr vs) = _
  rw [show vsize (Value.varr vs) = vsizeList vs + 1 from rfl]
  show Value.varr (vs.map (underF (vsizeList vs))) = Value.varr (vs.map underlying)
  congr 1
  apply List.map_congr_left
  intro x hx
  exact underF_fuelIndep (vsizeList vs) (vsize x) x (vsizeList_mem vs x hx) (le_refl _)

theorem underlying_of_match (m : Nat) (p : AbiParam) (v : Value)
    (h : abiMatchesF m p v = true) : underlying v = v :=
  underF_id_of_match m p v h (vsize v)

/- ### Formatting then stripping decoration recovers the decoded value -/

theorem under_idxApply_tuple (f : Nat)
    (IH : ∀ (m : Nat) (p : AbiParam) (v : Value),
      abiMatchesF m p v = true → wfParam p = true → underlying (formatF f p v) = v)
    (m : Nat) (cs : List AbiParam) (ws : List Value)
    (hcs : ∀ c ∈ cs, wfParam c = true)
    (hm : all2F (abiMatchesF m) cs ws = true) :
    underlying (Value.varr (idxApply (formatF f) cs ws)) = Value.varr ws := by
  rw [idxApply_eq_zipWith _ cs ws (all2F_length _ cs ws hm), underlying_varr,
    List.map_zipWith]
  congr 1
  exact all2F_zipWith_id _ _ cs ws (fun c hc w hw hq => IH m c w hq (hcs c hc)) hm

theorem under_format : ∀ (f m : Nat) (p : AbiParam) (v : Value),
    abiMatchesF m p v = true → wfParam p = true → underlying (formatF f p v) = v := by
  intro f
  induction f with
  | zero =>
    intro m p v hm _
    show underlying (Value.vitem (p.pname.getD "") p.ptype v) = v
    rw [underlying_vitem]
    exact underlying_of_match m p v hm
  | succ f2 ih =>
    intro m p v hm hw
    cases p with
    | prim n t =>
      simp only [formatF]
      rw [if_neg (show ¬((AbiParam.prim n t).isComp = true) from by simp [AbiParam.isComp]),
        underlying_vitem]
      exact underlying_of_match m _ v hm
    | comp n t cs =>
      obtain ⟨ht, hcs⟩ := wfParam_comp n t cs hw
      cases m with
      | zero => simp [abiMatchesF] at hm
      | succ m2 =>
        simp only [abiMatchesF] at hm
        rcases ht with rfl | rfl
        · rw [if_neg (not_eq_true_of_false
              (show strEndsWith (AbiParam.comp n ("tuple") cs).ptype ("[]") = false from rfl)),
            if_pos (show strStartsWith (AbiParam.comp n ("tuple") cs).ptype ("tuple") = true
              from rfl)] at hm
          cases v with
          | varr vs =>
            have hm' : all2F (abiMatchesF m2) cs vs = true := hm
            simp only [formatF]
            rw [if_pos (show (AbiParam.comp n ("tuple") cs).isComp = true from rfl),
              if_neg (not_eq_true_of_false
                (show (strEndsWith (AbiParam.comp n ("tuple") cs).ptype ("[]")
                  && (Value.varr vs).isArr) = false from rfl)),
              if_pos (show (Value.varr vs).isArr = true from rfl),
              underlying_vitem]
            exact under_idxApply_tuple f2 ih m2 cs vs hcs hm'
          | vstr s => simp at hm
          | vbool b => simp at hm
          | vint n2 => simp at hm
          | vundef => simp at hm
          | vitem a b c => simp at hm
        · rw [if_pos (show strEndsWith (AbiParam.comp n ("tuple[]") cs).ptype ("[]") = true
              from rfl)] at hm
          cases v with
          | varr vs =>
            have hm' : vs.all (abiMatchesF m2 (elemParam (AbiParam.comp n ("tuple[]") cs)))
                = true := hm
            have helem : elemParam (AbiParam.comp n ("tuple[]") cs)
                = AbiParam.comp n ("tuple") cs := by
              show AbiParam.comp n (strDropRight ("tuple[]") 2) cs = _
              rw [show strDropRight ("tuple[]") 2 = ("tuple") from by decide]
            rw [helem] at hm'
            simp only [formatF]
            rw [if_pos (show (AbiParam.comp n ("tuple[]") cs).isComp = true from rfl),
              if_pos (show (strEndsWith (AbiParam.comp n ("tuple[]") cs).ptype ("[]")
                && (Value.varr vs).isArr) = true from rfl),
              underlying_vitem, underlying_varr, List.map_map]
            congr 1
            apply map_self
            intro tv htv
            have hmtv := List.all_eq_true.mp hm' tv htv
            cases m2 with
            | zero => simp [abiMatchesF] at hmtv
            | succ m3 =>
              simp only [abiMatchesF] at hmtv
              rw [if_neg (not_eq_true_of_false
                  (show strEndsWith (AbiParam.comp n ("tuple") cs).ptype ("[]") = false from rfl)),
                if_pos (show strStartsWith (AbiParam.comp n ("tuple") cs).ptype ("tuple") = true
                  from rfl)] at hmtv
              cases tv with
              | varr ws =>
                have hmw : all2F (abiMatchesF m3) cs ws = true := hmtv
                show underlying (Value.varr (idxApply (formatF f2) cs (Value.varr ws).elems))
                  = Value.varr ws
                exact under_idxApply_tuple f2 ih m3 cs ws hcs hmw
              | vstr s => simp at hmtv
              | vbool b => simp at hmtv
              | vint n2 => simp at hmtv
              | vundef => simp at hmtv
              | vitem a b c => simp at hmtv
          | vstr s => simp at hm
          | vbool b => simp at hm
          | vint n2 => simp at hm
          | vundef => simp at hm
          | vitem a b c => simp at hm

/- ### Formatting depends on the descriptor only through its name-stripped form -/

theorem under_format_strip : ∀ (f : Nat) (p q : AbiParam) (v : Value),
    stripParam p = stripParam q → underlying (formatF f p v) = underlying (formatF f q v) := by
  intro f
  induction f with
  | zero =>
    intro p q v _
    show underlying (Value.vitem _ _ v) = underlying (Value.vitem _ _ v)
    rw [underlying_vitem, underlying_vitem]
  | succ f2 ih =>
    intro p q v hs
    cases p with
    | prim np tp =>
      cases q with
      | prim nq tq =>
        simp only [formatF]
        rw [if_neg (show ¬((AbiParam.prim np tp).isComp = true) from by simp [AbiParam.isComp]),
          if_neg (show ¬((AbiParam.prim nq tq).isComp = true) from by simp [AbiParam.isComp]),
          underlying_vitem, underlying_vitem]
      | comp nq tq csq =>
        rw [show stripParam (AbiParam.prim np tp) = AbiParam.prim none tp from rfl,
          stripParam_comp] at hs
        exact absurd hs (by simp)
    | comp np tp csp =>
      cases q with
      | prim nq tq =>
        rw [stripParam_comp,
          show stripParam (AbiParam.prim nq tq) = AbiParam.prim none tq from rfl] at hs
        exact absurd hs (by simp)
      | comp nq tq csq =>
        rw [stripParam_comp, stripParam_comp] at hs
        simp only [AbiParam.comp.injEq, true_and] at hs
        obtain ⟨htq, hcs⟩ := hs
        subst htq
        simp only [formatF]
        rw [if_pos (show (AbiParam.comp np tp csp).isComp = true from rfl),
          if_pos (show (AbiParam.comp nq tp csq).isComp = true from rfl)]
        by_cases hA : (strEndsWith tp ("[]") && v.isArr) = true
        · rw [if_pos (show (strEndsWith (AbiParam.comp np tp csp).ptype ("[]") && v.isArr) = true
              from hA),
            if_pos (show (strEndsWith (AbiParam.comp nq tp csq).ptype ("[]") && v.isArr) = true
              from hA),
            underlying_vitem, underlying_vitem, underlying_varr, underlying_varr]
          congr 1
          rw [List.map_map, List.map_map]
          apply List.map_congr_left
          intro tv _
          show underlying (Value.varr (idxApply (formatF f2) csp tv.elems))
            = underlying (Value.varr (idxApply (formatF f2) csq tv.elems))
          rw [underlying_varr, underlying_varr]
          congr 1
          rw [map_idxApply, map_idxApply]
          exact idxApply_strip _ _ csp csq hcs (fun c c' hcc w => ih c c' w hcc) tv.elems
        · rw [if_neg (show ¬((strEndsWith (AbiParam.comp np tp csp).ptype ("[]") && v.isArr)
              = true) from hA),
            if_neg (show ¬((strEndsWith (AbiParam.comp nq tp csq).ptype ("[]") && v.isArr)
              = true) from hA)]
          by_cases hB : v.isArr = true
          · rw [if_pos hB, if_pos hB, underlying_vitem, underlying_vitem,
              underlying_varr, underlying_varr]
            congr 1
            rw [map_idxApply, map_idxApply]
            exact idxApply_strip _ _ csp csq hcs (fun c c' hcc w => ih c c' w hcc) v.elems
          · rw [if_neg hB, if_neg hB, underlying_vitem, underlying_vitem]

/- ### Encoder-level assembly lemmas -/

theorem exceptMapM_length (f : α → Except String β) :
    ∀ (as : List α) (bs : List β), exceptMapM f as = .ok bs → bs.length = as.length := by
  intro as
  induction as with
  | nil =>
    intro bs h
    injection h with h2
    rw [← h2]
    rfl
  | cons a as2 ih =>
    intro bs h
    simp only [exceptMapM] at h
    cases hfa : f a with
    | error e => rw [hfa] at h; exact Except.noConfusion h
    | ok b =>
      rw [hfa] at h
      cases hrec : exceptMapM f as2 with
      | error e => rw [hrec] at h; exact Except.noConfusion h
      | ok bs2 =>
        rw [hrec] at h
        injection h with h2
        rw [← h2]
        simp [ih bs2 hrec]

theorem mkEncoderWith_ok (dfn : String → Value) (ps : List AbiParam) (enc : Encoder)
    (h : mkEncoderWith dfn ps = .ok enc) :
    enc.abiParams = ps ∧ enc.abiParamsNoNames = stripAbiNames ps
      ∧ enc.schema.length = ps.length := by
  cases hit : exceptMapM (buildSchemaItem dfn) ps with
  | error e =>
    unfold mkEncoderWith at h
    rw [hit] at h
    exact Except.noConfusion h
  | ok items =>
    unfold mkEncoderWith at h
    rw [hit] at h
    injection h with h2
    rw [← h2]
    exact ⟨rfl, rfl, exceptMapM_length _ _ _ hit⟩

theorem abiMatches_strip (p : AbiParam) (v : Value) :
    abiMatches (stripParam p) v = abiMatches p v :=
  abiMatchesF_strip (vsize v) p v

theorem all2F_abiMatches_strip (ps : List AbiParam) (ds : List Value) :
    all2F abiMatches (stripAbiNames ps) ds = all2F abiMatches ps ds := by
  show all2F abiMatches (ps.map stripParam) ds = all2F abiMatches ps ds
  rw [all2F_map_left]
  exact all2F_cong _ _ ps ds (fun p _ v _ => abiMatches_strip p v)

theorem data_eq_norm (ps : List AbiParam) (vs : List Value)
    (h : all2F inputMatches ps vs = true) :
    List.zipWith recursivePrepareData ps vs = List.zipWith specNormalize ps vs :=
  all2F_zipWith_congr _ _ _ ps vs (fun p _ v _ hq => prep_eq_norm (vsize v) p v hq) h

theorem prep_all_abiMatches (ps : List AbiParam) (vs : List Value)
    (h : all2F inputMatches ps vs = true) :
    all2F abiMatches ps (List.zipWith recursivePrepareData ps vs) = true := by
  apply all2F_zipWith_right _ _ _ ps vs ?_ h
  intro p _ v _ hq
  show abiMatchesF (vsize (prepF (vsize v) p v)) p (prepF (vsize v) p v) = true
  rw [prep_vsize (vsize v) p v hq]
  exact prep_abiMatches (vsize v) p v hq

theorem decoded_under :
    ∀ (ss : List SchemaItemSig) (ps : List AbiParam) (ds : List Value),
      ss.length = ps.length → (∀ p ∈ ps, wfParam p = true) →
      all2F abiMatches ps ds = true →
      (zip3With (fun s p v => ({ name := s.name, type := s.type, signature := s.signature,
                                 value := recursiveFormatDecodedData p v } : SDecodedItem))
        ss ps ds).map (fun d => underlying d.value) = ds := by
  intro ss
  induction ss with
  | nil =>
    intro ps ds hl _ hm
    cases ps with
    | nil =>
      cases ds with
      | nil => rfl
      | cons v ds2 => simp [all2F] at hm
    | cons p ps2 => simp at hl
  | cons s ss2 ih =>
    intro ps ds hl hwf hm
    cases ps with
    | nil => simp at hl
    | cons p ps2 =>
      cases ds with
      | nil => simp [all2F] at hm
      | cons v ds2 =>
        obtain ⟨hh, ht⟩ := all2F_head_tail _ p v ps2 ds2 hm
        have hhead : underlying (recursiveFormatDecodedData p v) = v :=
          under_format (vsize v) (vsize v) p v hh (hwf p (by simp))
        have htail := ih ps2 ds2 (by simpa using hl)
          (fun x hx => hwf x (by simp [hx])) ht
        exact congrArg₂ List.cons hhead htail

theorem zip3_under_strip :
    ∀ (ps : List AbiParam) (ss1 ss2 : List SchemaItemSig) (qs : List AbiParam)
      (ds : List Value),
      ss1.length = ps.length → ss2.length = qs.length →
      ps.map stripParam = qs.map stripParam →
      (zip3With (fun s p v => ({ name := s.name, type := s.type, signature := s.signature,
                                 value := recursiveFormatDecodedData p v } : SDecodedItem))
        ss1 ps ds).map (fun d => underlying d.value)
        = (zip3With (fun s p v => ({ name := s.name, type := s.type,
                                     signature := s.signature,
                                     value := recursiveFormatDecodedData p v } : SDecodedItem))
          ss2 qs ds).map (fun d => underlying d.value) := by
  intro ps
  induction ps with
  | nil =>
    intro ss1 ss2 qs ds hl1 hl2 hmap
    cases qs with
    | nil =>
      cases ss1 with
      | nil =>
        cases ss2 with
        | nil => rfl
        | cons s2 sr2 => simp at hl2
      | cons s1 sr1 => simp at hl1
    | cons q qs2 => simp at hmap
  | cons p ps2 ih =>
    intro ss1 ss2 qs ds hl1 hl2 hmap
    cases qs with
    | nil => simp at hmap
    | cons q qs2 =>
      simp only [List.map, List.cons.injEq] at hmap
      cases ss1 with
      | nil => simp at hl1
      | cons s1 sr1 =>
        cases ss2 with
        | nil => simp at hl2
        | cons s2 sr2 =>
          cases ds with
          | nil => rfl
          | cons v ds2 =>
            have hhead : underlying (recursiveFormatDecodedData p v)
                = underlying (recursiveFormatDecodedData q v) :=
              under_format_strip (vsize v) p q v hmap.1
            have htail := ih sr1 sr2 qs2 ds2 (by simpa using hl1)
              (by simpa using hl2) hmap.2
            exact congrArg₂ List.cons hhead htail

/-- Claim C1: for every parameter list accepted by the first-variant
`SchemaEncoder` constructor (the parse of a schema the constructor
accepts, well-formed in the parser's grammar) and every item list whose
values positionally match the descriptors, `decodeData` applied to the
payload returned by `encodeData` succeeds, and the decoded items carry
exactly the input values modulo the one-directional normalizations
(non-hex strings in `bytes32` slots packed to fixed-size hex form,
address strings checksummed), i.e. the spec's `specNormalize`. -/
theorem C1_encode_decode_roundtrip
    (params : List AbiParam) (items : List SItemIn) (enc : Encoder)
    (hwf : wfParams params = true)
    (henc : mkEncoder params = .ok enc)
    (hlen : items.length = params.length)
    (hmatch : all2F inputMatches params (items.map SItemIn.value) = true) :
    ∃ payload decoded,
      encodeData1 enc items = .ok payload ∧
      decodeData1 enc payload = .ok decoded ∧
      decoded.map (fun d => underlying d.value)
        = List.zipWith specNormalize params (items.map SItemIn.value) := by
  obtain ⟨hep, hen, hsl⟩ := mkEncoderWith_ok _ params enc henc
  have hne : ¬((items.length != enc.schema.length) = true) := by simp [hsl, hlen]
  have hall : all2F abiMatches params
      (List.zipWith recursivePrepareData params (items.map SItemIn.value)) = true :=
    prep_all_abiMatches params _ hmatch
  have e1 : List.zipWith (fun p it => recursivePrepareData p it.value) params items
      = List.zipWith recursivePrepareData params (items.map SItemIn.value) :=
    (List.zipWith_map_right params items SItemIn.value recursivePrepareData).symm
  refine ⟨List.zipWith recursivePrepareData params (items.map SItemIn.value),
    zip3With (fun s p v => ({ name := s.name, type := s.type, signature := s.signature,
                              value := recursiveFormatDecodedData p v } : SDecodedItem))
      enc.schema params
      (List.zipWith recursivePrepareData params (items.map SItemIn.value)),
    ?_, ?_, ?_⟩
  · simp only [encodeData1, hep]
    rw [if_neg hne, e1]
    simp [encodeAbiParameters, hall]
  · simp only [decodeData1, hen, hep]
    rw [show decodeAbiParameters (stripAbiNames params)
        (List.zipWith recursivePrepareData params (items.map SItemIn.value))
        = .ok (List.zipWith recursivePrepareData params (items.map SItemIn.value)) from by
      simp [decodeAbiParameters, all2F_abiMatches_strip, hall]]
    rfl
  · rw [decoded_under enc.schema params _ hsl
      (fun p hp => List.all_eq_true.mp hwf p hp) hall]
    exact data_eq_norm params _ hmatch

/-- Claim C1 witness: a `uint256 x` schema with value 5 round-trips. -/
theorem C1_encode_decode_roundtrip_witness :
    wfParams [AbiParam.prim (some "x") ("uint256")] = true ∧
    ∃ payload decoded,
      encodeData1
        { schema := [{ name := "x", type := "uint256", signature := "uint256 x",
                       value := Value.vint 0 }],
          abiParams := [AbiParam.prim (some "x") ("uint256")],
          abiParamsNoNames := [AbiParam.prim none ("uint256")] }
        [{ name := "x", type := "uint256", value := Value.vint 5 }] = .ok payload ∧
      decodeData1
        { schema := [{ name := "x", type := "uint256", signature := "uint256 x",
                       value := Value.vint 0 }],
          abiParams := [AbiParam.prim (some "x") ("uint256")],
          abiParamsNoNames := [AbiParam.prim none ("uint256")] } payload = .ok decoded ∧
      decoded.map (fun d => underlying d.value)
        = List.zipWith specNormalize [AbiParam.prim (some "x") ("uint256")]
            ([({ name := "x", type := "uint256", value := Value.vint 5 } : SItemIn)].map
              SItemIn.value) :=
  ⟨by decide, C1_encode_decode_roundtrip _ _ _ (by decide) (by rfl) (by decide) (by decide)⟩

/-- Claim C10: decoding is independent of field names — for two parsed
descriptor lists with the same name-stripped shape, `decodeData` on any
payload yields the same underlying decoded values (the names only label
the output items). -/
theorem C10_decode_name_independence
    (ps qs : List AbiParam) (e1 e2 : Encoder) (d : Payload)
    (hstrip : stripAbiNames ps = stripAbiNames qs)
    (h1 : mkEncoder ps = .ok e1) (h2 : mkEncoder qs = .ok e2) :
    Except.map (fun l => l.map (fun it => underlying it.value)) (decodeData1 e1 d)
      = Except.map (fun l => l.map (fun it => underlying it.value)) (decodeData1 e2 d) := by
  obtain ⟨hep1, hen1, hsl1⟩ := mkEncoderWith_ok _ ps e1 h1
  obtain ⟨hep2, hen2, hsl2⟩ := mkEncoderWith_ok _ qs e2 h2
  simp only [decodeData1, hen1, hen2, hep1, hep2, hstrip]
  cases hd : decodeAbiParameters (stripAbiNames qs) d with
  | error e => rfl
  | ok values =>
    exact congrArg Except.ok
      (zip3_under_strip ps e1.schema e2.schema qs values hsl1 hsl2 hstrip)

/-- Claim C10 witness: `uint256 a` and `uint256 b` decode a payload to
the same underlying values. -/
theorem C10_decode_name_independence_witness :
    Except.map (fun l => l.map (fun it => underlying it.value))
      (decodeData1
        { schema := [{ name := "a", type := "uint256", signature := "uint256 a",
                       value := Value.vint 0 }],
          abiParams := [AbiParam.prim (some "a") ("uint256")],
          abiParamsNoNames := [AbiParam.prim none ("uint256")] } [Value.vint 3])
      = Except.map (fun l => l.map (fun it => underlying it.value))
        (decodeData1
          { schema := [{ name := "b", type := "uint256", signature := "uint256 b",
                         value := Value.vint 0 }],
            abiParams := [AbiParam.prim (some "b") ("uint256")],
            abiParamsNoNames := [AbiParam.prim none ("uint256")] } [Value.vint 3]) :=
  C10_decode_name_independence
    [AbiParam.prim (some "a") ("uint256")] [AbiParam.prim (some "b") ("uint256")]
    { schema := [{ name := "a", type := "uint256", signature := "uint256 a",
                   value := Value.vint 0 }],
      abiParams := [AbiParam.prim (some "a") ("uint256")],
      abiParamsNoNames := [AbiParam.prim none ("uint256")] }
    { schema := [{ name := "b", type := "uint256", signature := "uint256 b",
                   value := Value.vint 0 }],
      abiParams := [AbiParam.prim (some "b") ("uint256")],
      abiParamsNoNames := [AbiParam.prim none ("uint256")] }
    [Value.vint 3] (by rfl) (by rfl) (by rfl)

/- ### The second variant's input condition forces the ABI fit -/

theorem mkEncoderWith_parts (dfn : String → Value) (ps : List AbiParam) (enc : Encoder)
    (h : mkEncoderWith dfn ps = .ok enc) :
    exceptMapM (buildSchemaItem dfn) ps = .ok enc.schema ∧ enc.abiParams = ps := by
  cases hit : exceptMapM (buildSchemaItem dfn) ps with
  | error e =>
    unfold mkEncoderWith at h
    rw [hit] at h
    exact Except.noConfusion h
  | ok items =>
    unfold mkEncoderWith at h
    rw [hit] at h
    injection h with h2
    rw [← h2]
    exact ⟨rfl, rfl⟩

theorem buildSchemaItem_bytes32 (dfn : String → Value) (p : AbiParam) (si : SchemaItemSig)
    (h : buildSchemaItem dfn p = .ok si) (ht : si.type = "bytes32") :
    p.ptype = "bytes32" := by
  unfold buildSchemaItem at h
  by_cases hst : strStartsWith p.ptype ("tuple") = true
  · rw [if_pos hst] at h
    cases p with
    | prim n t => exact Except.noConfusion h
    | comp n t cs =>
      injection h with h2
      rw [← h2] at ht
      have hd := congrArg String.data ht
      rw [String.data_append, String.data_append, String.data_append] at hd
      simp only [show ("(" : String).data = ['('] from rfl, List.cons_append,
        List.nil_append, List.append_assoc] at hd
      injection hd with hc _
      exact absurd hc (by decide)
  · rw [if_neg hst] at h
    injection h with h2
    rw [← h2] at ht
    exact ht

theorem abiMatches_bytes32_slot (p : AbiParam) (hp : p.ptype = "bytes32") (s : String)
    (h1 : isHexStr s = true) (h2 : s.data.length = 66) :
    abiMatches p (.vstr s) = true := by
  show abiMatchesF 1 p (Value.vstr s) = true
  simp only [abiMatchesF, hp]
  rw [if_neg (not_eq_true_of_false (show strEndsWith ("bytes32") ("[]") = false from rfl)),
    if_neg (not_eq_true_of_false (show strStartsWith ("bytes32") ("tuple") = false from rfl))]
  rw [primAbiMatches_bytes32]
  show (isHexStr s && s.data.length == 66) = true
  rw [h1, h2]
  rfl

theorem encodeTransform2_fits (dfn : String → Value) :
    ∀ (ps : List AbiParam) (ss : List SchemaItemSig) (its : List SItemIn),
      exceptMapM (buildSchemaItem dfn) ps = .ok ss →
      all3F inputOk2 ss ps its = true →
      all2F abiMatches ps (List.zipWith encodeTransform2 ss its) = true := by
  intro ps
  induction ps with
  | nil =>
    intro ss its hmap _
    injection hmap with h2
    rw [← h2]
    rfl
  | cons p ps2 ih =>
    intro ss its hmap h3
    simp only [exceptMapM] at hmap
    cases hfa : buildSchemaItem dfn p with
    | error e => rw [hfa] at hmap; exact Except.noConfusion hmap
    | ok si =>
      rw [hfa] at hmap
      cases hrec : exceptMapM (buildSchemaItem dfn) ps2 with
      | error e => rw [hrec] at hmap; exact Except.noConfusion hmap
      | ok ss2 =>
        rw [hrec] at hmap
        injection hmap with h2
        rw [← h2] at h3 ⊢
        cases its with
        | nil => simp [all3F] at h3
        | cons it its2 =>
          rw [show all3F inputOk2 (si :: ss2) (p :: ps2) (it :: its2)
              = (inputOk2 si p it && all3F inputOk2 ss2 ps2 its2) from rfl,
            Bool.and_eq_true] at h3
          obtain ⟨hh, ht⟩ := h3
          rw [show List.zipWith encodeTransform2 (si :: ss2) (it :: its2)
              = encodeTransform2 si it :: List.zipWith encodeTransform2 ss2 its2 from rfl,
            show all2F abiMatches (p :: ps2)
                (encodeTransform2 si it :: List.zipWith encodeTransform2 ss2 its2)
              = (abiMatches p (encodeTransform2 si it)
                && all2F abiMatches ps2 (List.zipWith encodeTransform2 ss2 its2)) from rfl,
            ih ss2 its2 hrec ht, Bool.and_true]
          cases hv : it.value with
          | vstr s =>
            simp only [inputOk2, hv] at hh
            simp only [encodeTransform2, hv]
            by_cases hb : (si.type == "bytes32" && !isHexStr s) = true
            · rw [if_pos hb]
              have hty : si.type = "bytes32" := by
                rw [Bool.and_eq_true] at hb
                exact eq_of_beq hb.1
              exact abiMatches_bytes32_slot p
                (buildSchemaItem_bytes32 dfn p si hfa hty) _
                (stringToHex32_isHex s) (stringToHex32_length s)
            · rw [if_neg hb] at hh
              rw [if_neg hb]
              exact hh
          | vbool b =>
            simp only [inputOk2, hv] at hh
            simp only [encodeTransform2, hv]
            exact hh
          | vint n =>
            simp only [inputOk2, hv] at hh
            simp only [encodeTransform2, hv]
            exact hh
          | vundef =>
            simp only [inputOk2, hv] at hh
            simp only [encodeTransform2, hv]
            exact hh
          | varr vs =>
            simp only [inputOk2, hv] at hh
            simp only [encodeTransform2, hv]
            exact hh
          | vitem a b c =>
            simp only [inputOk2, hv] at hh
            simp only [encodeTransform2, hv]
            exact hh

/- ### The second encoder variant's check loop -/

theorem encodeLoop2_all_pass :
    ∀ (ss : List SchemaItemSig) (its : List SItemIn),
      all2F (fun si x => !typeCheckFails2 si x && (x.name == si.name)) ss its = true →
      encodeLoop2 ss its = .ok (List.zipWith encodeTransform2 ss its) := by
  intro ss
  induction ss with
  | nil =>
    intro its h
    cases its with
    | nil => rfl
    | cons it its2 => simp [all2F] at h
  | cons si ss2 ih =>
    intro its h
    cases its with
    | nil => simp [all2F] at h
    | cons it its2 =>
      simp only [all2F, Bool.and_eq_true, Bool.not_eq_true'] at h
      obtain ⟨⟨hty, hname⟩, hrest⟩ := h
      have hbne : (it.name != si.name) = false := by
        simp [bne, hname]
      simp only [encodeLoop2, hty, Bool.false_eq_true, if_false, hbne, ih its2 hrest]
      rfl

theorem encodeLoop2_first_fail :
    ∀ (spre : List SchemaItemSig) (pre : List SItemIn) (sit : SchemaItemSig)
      (it : SItemIn) (spost : List SchemaItemSig) (post : List SItemIn),
      spre.length = pre.length →
      all2F (fun si x => !typeCheckFails2 si x && (x.name == si.name)) spre pre = true →
      typeCheckFails2 sit it = true →
      encodeLoop2 (spre ++ sit :: spost) (pre ++ it :: post) =
        .error ("Incompatible param type: " ++ removeWs it.type) := by
  intro spre
  induction spre with
  | nil =>
    intro pre sit it spost post hlen hpass hfail
    cases pre with
    | nil => simp [encodeLoop2, hfail]
    | cons p ps => simp at hlen
  | cons s ss2 ih =>
    intro pre sit it spost post hlen hpass hfail
    cases pre with
    | nil => simp at hlen
    | cons p ps =>
      simp only [all2F, Bool.and_eq_true, Bool.not_eq_true'] at hpass
      obtain ⟨⟨hty, hname⟩, hrest⟩ := hpass
      have hbne : (p.name != s.name) = false := by
        simp [bne, hname]
      have hlen2 : ss2.length = ps.length := by simpa using hlen
      simp only [List.cons_append, encodeLoop2, hty, Bool.false_eq_true, if_false,
        hbne, List.append_eq]
      rw [ih ps sit it spost post hlen2 hrest hfail]
      rfl

/-- Claim C2 (amended, for the second variant's `encodeData`, which does
enforce the check): with the item count matching, (a) if the items up to
position `k` pass the sanitized-type and name checks and the item at `k`
fails the type check, `encodeData` fails with the type-mismatch error
for that item; (b) if every item passes the type check — including via
the `ipfsHash`-for-`bytes32` exception — and the name check, and each
supplied value fits its ABI slot (a `bytes32` slot also accepting any
non-hex string, which `encodeData` itself packs into a full 32-byte
word, so a string accepted through the `ipfsHash` exception imposes no
extra condition), `encodeData` succeeds with the transformed values. -/
theorem C2_variant2_type_enforcement (params : List AbiParam) (enc : Encoder)
    (items : List SItemIn)
    (henc : mkEncoder2 params = .ok enc)
    (hlen : items.length = enc.schema.length) :
    (∀ (spre : List SchemaItemSig) (pre : List SItemIn) (sit : SchemaItemSig)
       (it : SItemIn) (spost : List SchemaItemSig) (post : List SItemIn),
      enc.schema = spre ++ sit :: spost → items = pre ++ it :: post →
      spre.length = pre.length →
      all2F (fun si x => !typeCheckFails2 si x && (x.name == si.name)) spre pre = true →
      typeCheckFails2 sit it = true →
      encodeData2 enc items =
        .error ("Incompatible param type: " ++ removeWs it.type)) ∧
    (all2F (fun si x => !typeCheckFails2 si x && (x.name == si.name))
        enc.schema items = true →
      all3F inputOk2 enc.schema enc.abiParams items = true →
      encodeData2 enc items =
        .ok (List.zipWith encodeTransform2 enc.schema items)) := by
  have hbne : (items.length != enc.schema.length) = false := by
    simp [bne, hlen]
  constructor
  · intro spre pre sit it spost post hs hi hplen hpass hfail
    subst hi
    have hloop := encodeLoop2_first_fail spre pre sit it spost post hplen hpass hfail
    simp only [encodeData2, hbne, Bool.false_eq_true, if_false]
    rw [hs, hloop]
    rfl
  · intro hpass hok
    obtain ⟨hmap, hep⟩ := mkEncoderWith_parts _ params enc henc
    rw [hep] at hok
    have habi : all2F abiMatches params
        (List.zipWith encodeTransform2 enc.schema items) = true :=
      encodeTransform2_fits _ params enc.schema items hmap hok
    rw [← hep] at habi
    have hloop := encodeLoop2_all_pass enc.schema items hpass
    simp only [encodeData2, hbne, Bool.false_eq_true, if_false, hloop]
    show encodeAbiParameters enc.abiParams (List.zipWith encodeTransform2 enc.schema items) = _
    simp [encodeAbiParameters, habi]

/-- Claim C2 (witness for the amended theorem): a `bytes32` descriptor
accepts the declared type `ipfsHash`, and encoding succeeds, packing the
non-hex string value into a `bytes32` word; while a genuinely mismatched
declared type (`uint256` against descriptor `bool`) fails with the
type-mismatch error. -/
theorem C2_variant2_type_enforcement_witness :
    encodeData2
      { schema := [{ name := "h", type := "bytes32", signature := "bytes32 h",
                     value := Value.vstr "" }],
        abiParams := [AbiParam.prim (some "h") ("bytes32")],
        abiParamsNoNames := [AbiParam.prim none ("bytes32")] }
      [{ name := "h", type := "ipfsHash", value := Value.vstr "doc" }] =
      .ok [Value.vstr (stringToHex32 ("doc"))] ∧
    encodeData2
      { schema := [{ name := "a", type := "bool", signature := "bool a",
                     value := Value.vbool false }],
        abiParams := [AbiParam.prim (some "a") ("bool")],
        abiParamsNoNames := [AbiParam.prim none ("bool")] }
      [{ name := "a", type := "uint256", value := Value.vbool true }] =
      .error ("Incompatible param type: uint256") := by
  constructor
  · have h := C2_variant2_type_enforcement [AbiParam.prim (some "h") ("bytes32")]
      { schema := [{ name := "h", type := "bytes32", signature := "bytes32 h",
                     value := Value.vstr "" }],
        abiParams := [AbiParam.prim (some "h") ("bytes32")],
        abiParamsNoNames := [AbiParam.prim none ("bytes32")] }
      [{ name := "h", type := "ipfsHash", value := Value.vstr "doc" }]
      rfl rfl
    exact h.2 (by decide) (by decide)
  · have h := C2_variant2_type_enforcement [AbiParam.prim (some "a") ("bool")]
      { schema := [{ name := "a", type := "bool", signature := "bool a",
                     value := Value.vbool false }],
        abiParams := [AbiParam.prim (some "a") ("bool")],
        abiParamsNoNames := [AbiParam.prim none ("bool")] }
      [{ name := "a", type := "uint256", value := Value.vbool true }]
      rfl rfl
    exact h.1 [] [] _ _ [] [] rfl rfl rfl rfl (by decide)

/-- Claim C2 (counterexample): the claim covers both `encodeData`
variants, but the first variant performs no declared-type check at all:
with descriptor `bool a` and the mismatched declared type `uint256`,
its `encodeData` succeeds instead of failing with a type-mismatch
error. -/
theorem C2_variant1_no_type_check_counterexample :
    mkEncoder [AbiParam.prim (some "a") ("bool")] =
      .ok { schema := [{ name := "a", type := "bool", signature := "bool a",
                         value := Value.vbool false }],
            abiParams := [AbiParam.prim (some "a") ("bool")],
            abiParamsNoNames := [AbiParam.prim none ("bool")] } ∧
    encodeData1
      { schema := [{ name := "a", type := "bool", signature := "bool a",
                     value := Value.vbool false }],
        abiParams := [AbiParam.prim (some "a") ("bool")],
        abiParamsNoNames := [AbiParam.prim none ("bool")] }
      [{ name := "a", type := "uint256", value := Value.vbool true }] =
      .ok [Value.vbool true] :=
  ⟨rfl, rfl⟩

/-- Claim C5 (counterexample): the claim says the identifier of a
hex-marker-free reference is computed locally as a pure content hash,
with no network call issued to obtain it; but resolving the literal
text `uint256 a` issues the `computeSchemaId` contract read, and two
environments that differ only in that contract call's answer resolve
the same text to different identifiers — the identifier is not a local
function of the text. -/
theorem C5_network_call_counterexample :
    Call.computeSchemaId "uint256 a" ∈ (schemaLookupM envTextRef "uint256 a").calls ∧
    (schemaLookupM envTextRef "uint256 a").res =
      .ok (.inl { baseSchema := "uint256 a", finalSchema := "uint256 a",
                  schemaId := "0xc0ffee" }) ∧
    (schemaLookupM envTextRef2 "uint256 a").res =
      .ok (.inl { baseSchema := "uint256 a", finalSchema := "uint256 a",
                  schemaId := "0xd00d" }) := by
  refine ⟨by decide, rfl, rfl⟩

end StreamsSDK
